import Mathlib

/-!
Formal model of the options-trading simulator: the two credit-spread
builders (`spread.py`) and the minute-by-minute simulation loop
(`simulator.py`).  Prices and strikes are modelled as rationals,
times of day as seconds since midnight, timestamps as (day, second)
pairs ordered lexicographically (matching the string comparisons of
`YYYY-MM-DD HH:MM:SS` values in the code).
-/

attribute [local semireducible] Rat.add Rat.mul Rat.inv Rat.sub Rat.ofScientific

namespace OptSim

/-- Python's built-in `round` to an integer: round half to even. -/
def pyRound (x : ℚ) : ℤ :=
  if Int.fract x < 1/2 then ⌊x⌋
  else if 1/2 < Int.fract x then ⌊x⌋ + 1
  else if ⌊x⌋ % 2 = 0 then ⌊x⌋ else ⌊x⌋ + 1

/-- Python's `round(x, 2)`. -/
def round2 (x : ℚ) : ℚ := (pyRound (x * 100) : ℚ) / 100

/-- Python's `round(x, 1)`. -/
def round1 (x : ℚ) : ℚ := (pyRound (x * 10) : ℚ) / 10

/-! ## Basic data types -/

/-- The two spread sides; the strings `put_spread` / `call_spread` of the code. -/
inductive SpreadType where
  | put_spread
  | call_spread
deriving DecidableEq, Repr

/-- The `stop_loss_type` strategy parameter: `bep` or `expire`. -/
inductive StopLossType where
  | bep
  | expire
deriving DecidableEq, Repr

/-- The `hedge` strategy parameter: `box`, `time_box`, or anything else
(no hedge). -/
inductive HedgePolicy where
  | box
  | time_box
  | none_
deriving DecidableEq, Repr

/-- The `outcome` field written by the builders. -/
inductive Outcome where
  | take_profit
  | stop_loss
  | expire
deriving DecidableEq, Repr

/-- The `current_status` field: `active` on construction, `close` once closed. -/
inductive Status where
  | active
  | close
deriving DecidableEq, Repr

/-- A full timestamp: an abstract (ordered) day index and a second-of-day.
Lexicographic comparison models the code's string comparison of
`YYYY-MM-DD HH:MM:SS` values. -/
structure Timestamp where
  day : ℕ
  sec : ℕ
deriving DecidableEq, Repr

def Timestamp.le (a b : Timestamp) : Bool :=
  decide (a.day < b.day ∨ (a.day = b.day ∧ a.sec ≤ b.sec))

def Timestamp.lt (a b : Timestamp) : Bool :=
  decide (a.day < b.day ∨ (a.day = b.day ∧ a.sec < b.sec))

/-- One row of the option-chain query for one strike:
(time, bid, ask, spx_price). -/
structure QuoteRow where
  time : ℕ
  bid : ℚ
  ask : ℚ
  spx : ℚ
deriving DecidableEq, Repr

/-- One row of the inner join of the sell leg's and buy leg's quote series. -/
structure JoinedRow where
  time : ℕ
  sellBid : ℚ
  sellAsk : ℚ
  buyBid : ℚ
  buyAsk : ℚ
  spx : ℚ
deriving DecidableEq, Repr

/-- A trade record, one row of the builders' returned dataframe. -/
structure Trade where
  spreadType : SpreadType
  width : ℚ
  offset : ℚ
  stopLossType : StopLossType
  takeProfitLevel : ℚ
  strikes : ℚ × ℚ
  maxLoss : ℚ
  maxProfit : ℚ
  entryTime : Timestamp
  entryPrice : ℚ
  exitTime : Timestamp
  exitPrice : ℚ
  pnl : ℚ
  outcome : Option Outcome
  currentStatus : Status
  breakEvenLevel : ℚ
  breakEvenTime : Option Timestamp
  breakEvenTimes : List ℕ
deriving DecidableEq, Repr

/-- Result of `get_spread_data`: the Python `None` return (entry price below
`-width`), the empty dataframe returned from the exception handler, or a
one-row trade dataframe. -/
inductive SpreadResult where
  | nonePy
  | emptyFrame
  | trade (t : Trade)
deriving DecidableEq, Repr

def SpreadResult.getTrade? : SpreadResult → Option Trade
  | .trade t => some t
  | _ => none

/-! ## Spread builders (`spread.py`)

`21:50:00` is second 78600 of the day and `22:00:00` is second 79200. -/

/-- `PutCreditSpread._get_spread_strikes`:
`sell = round(spx/5)*5 + offset`, `buy = sell - width`. -/
def putStrikesSel (spx offset w : ℚ) : ℚ × ℚ :=
  ((pyRound (spx / 5) : ℚ) * 5 + offset, (pyRound (spx / 5) : ℚ) * 5 + offset - w)

/-- `CallCreditSpread._get_spread_strikes`:
`sell = round(spx/5)*5 - offset`, `buy = sell + width`. -/
def callStrikesSel (spx offset w : ℚ) : ℚ × ℚ :=
  ((pyRound (spx / 5) : ℚ) * 5 - offset, (pyRound (spx / 5) : ℚ) * 5 - offset + w)

/-- `round(x / 0.05) * 0.05`: rounding to the nearest 0.05 tick. -/
def tickRound (x : ℚ) : ℚ := (pyRound (x * 20) : ℚ) / 20

/-- `PutCreditSpread._calc_rounded_price`.  Note the sentinel fires when
EITHER leg's bid and ask are both zero. -/
def putCalcRoundedPrice (w slip buyAsk buyBid sellAsk sellBid : ℚ) : ℚ :=
  if buyAsk = 0 ∧ buyBid = 0 then -w
  else if sellAsk = 0 ∧ sellBid = 0 then -w
  else
    let ba := max 0 buyAsk
    let bb := max 0 buyBid
    let sa := max 0 sellAsk
    let sb := max 0 sellBid
    round2 (tickRound (((ba - sa) + (bb - sb)) / 2) + slip)

/-- `CallCreditSpread._calc_rounded_price`.  The sentinel fires only when
all four quotes are zero. -/
def callCalcRoundedPrice (w slip buyAsk buyBid sellAsk sellBid : ℚ) : ℚ :=
  if buyAsk = 0 ∧ buyBid = 0 ∧ sellAsk = 0 ∧ sellBid = 0 then -w
  else
    let ba := max 0 buyAsk
    let bb := max 0 buyBid
    let sa := max 0 sellAsk
    let sb := max 0 sellBid
    round2 (tickRound (((ba - sa) + (bb - sb)) / 2) + slip)

def putRowPrice (w slip : ℚ) (r : JoinedRow) : ℚ :=
  putCalcRoundedPrice w slip r.buyAsk r.buyBid r.sellAsk r.sellBid

def callRowPrice (w slip : ℚ) (r : JoinedRow) : ℚ :=
  callCalcRoundedPrice w slip r.buyAsk r.buyBid r.sellAsk r.sellBid

/-- `PutCreditSpread._calculate_max_loss`. -/
def putMaxLoss (sell buy e : ℚ) : ℚ := -(round2 ((sell - buy + e) * 100))

/-- `CallCreditSpread._calculate_max_loss`. -/
def callMaxLoss (sell buy e : ℚ) : ℚ := -(round2 ((buy - sell + e) * 100))

/-- `_calculate_max_profit` (both builders). -/
def maxProfitOf (e : ℚ) : ℚ := round2 (-e * 100)

/-- `PutCreditSpread._calculate_break_even_points`. -/
def putBreakEvenLevel (sell e : ℚ) : ℚ := round2 (sell + e)

/-- `CallCreditSpread._calculate_break_even_points`. -/
def callBreakEvenLevel (sell e : ℚ) : ℚ := round2 (sell - e)

/-- `round(entry_price * take_profit_level, 1)`: the take-profit threshold,
also used by the end-of-session override as exit price. -/
def tpThreshold (e tpl : ℚ) : ℚ := round1 (e * tpl)

/-- Strategy configuration, the per-strategy entry of `strategies_data`. -/
structure StratData where
  entries : List Timestamp
  maxActive : ℕ
  width : ℚ
  offset : ℚ
  stopLossType : StopLossType
  takeProfitLevel : ℚ
  hedge : HedgePolicy
  startWindow : ℕ
  endWindow : ℕ
deriving DecidableEq, Repr

/-- The option-chain query for one strike, filtered to `time >= entry_time`
(the SQL `WHERE time >= ?`), in stored (time) order. -/
def legRows (chain : ℚ → List QuoteRow) (esec : ℕ) (k : ℚ) : List QuoteRow :=
  (chain k).filter (fun r => decide (esec ≤ r.time))

/-- Inner join of the sell leg's and the buy leg's series on `time`,
keeping the sell leg's `spx_price` (the right one is dropped). -/
def joinRows (sell buy : List QuoteRow) : List JoinedRow :=
  sell.filterMap (fun s =>
    (buy.find? (fun b => b.time == s.time)).map (fun b =>
      { time := s.time, sellBid := s.bid, sellAsk := s.ask,
        buyBid := b.bid, buyAsk := b.ask, spx := s.spx }))

/-- The joined quote series of a put (or call) spread. -/
def joinedSeries (chain : ℚ → List QuoteRow) (esec : ℕ) (sellLeg buyLeg : ℚ) :
    List JoinedRow :=
  joinRows (legRows chain esec sellLeg) (legRows chain esec buyLeg)

/-- First minute at which the put spread's break-even flag is true:
`spx_price < break_even_level`. -/
def putBE? (lvl : ℚ) (rows : List JoinedRow) : Option ℕ :=
  (rows.find? (fun r => decide (r.spx < lvl))).map (·.time)

/-- First minute at which the call spread's break-even flag is true:
`spx_price > break_even_level`. -/
def callBE? (lvl : ℚ) (rows : List JoinedRow) : Option ℕ :=
  (rows.find? (fun r => decide (r.spx > lvl))).map (·.time)

/-- First minute at which the put spread's take-profit flag is true:
`spread_price > round(entry_price * take_profit_level, 1)`. -/
def putTP? (w slip thr : ℚ) (rows : List JoinedRow) : Option ℕ :=
  (rows.find? (fun r => decide (putRowPrice w slip r > thr))).map (·.time)

def callTP? (w slip thr : ℚ) (rows : List JoinedRow) : Option ℕ :=
  (rows.find? (fun r => decide (callRowPrice w slip r > thr))).map (·.time)

/-- The exit-resolution block of `get_spread_data` (identical in both
builders): from the first break-even minute, the first take-profit minute
and the last joined minute, produce the exit minute and the outcome.
When both times exist and break-even is NOT strictly earlier, the code's
`if` has no `else`: the exit stays at the take-profit minute and the
outcome stays `None`. -/
def resolveExit (slt : StopLossType) (be? tp? : Option ℕ) (lastT : ℕ) :
    ℕ × Option Outcome :=
  match slt with
  | .bep =>
    match be?, tp? with
    | some b, some p => if b < p then (b, some .stop_loss) else (p, none)
    | some b, none => (b, some .stop_loss)
    | none, some p => (p, some .take_profit)
    | none, none => (lastT, some .expire)
  | .expire =>
    match tp? with
    | some p => (p, some .take_profit)
    | none => (lastT, some .expire)

/-- The sequential pnl clamp of `get_spread_data`:
`if pnl < max_loss: pnl = max_loss - commission`, then
`if pnl > max_profit: pnl = max_profit - commission`. -/
def clampPnl (p0 mL mP c : ℚ) : ℚ :=
  let p1 := if p0 < mL then mL - c else p0
  if p1 > mP then mP - c else p1

/-- Body of `PutCreditSpread.get_spread_data` on a non-empty joined series
`r0 :: rest`. -/
def putOutput (day esec : ℕ) (sd : StratData) (slip comm : ℚ)
    (sellLeg buyLeg eodSpx : ℚ) (r0 : JoinedRow) (rest : List JoinedRow) :
    SpreadResult :=
  let rows := r0 :: rest
  let e := putRowPrice sd.width slip r0
  let mL := putMaxLoss sellLeg buyLeg e
  let mP := maxProfitOf e
  let beLvl := putBreakEvenLevel sellLeg e
  let be? := putBE? beLvl rows
  let tp? := putTP? sd.width slip (tpThreshold e sd.takeProfitLevel) rows
  let lastT := (rest.getLastD r0).time
  let res := resolveExit sd.stopLossType be? tp? lastT
  let beTimes := (rows.filter (fun r => decide (r.spx < beLvl))).map (·.time)
  match rows.find? (fun r => r.time == res.1) with
  | none => .emptyFrame
  | some rx =>
    let xp := putRowPrice sd.width slip rx
    let fin : ℕ × Option Outcome × ℚ :=
      if lastT < 78600 then
        if eodSpx > sellLeg then (lastT, some .take_profit, tpThreshold e sd.takeProfitLevel)
        else (79200, some .expire, -sd.width)
      else (res.1, res.2, xp)
    let pnl := clampPnl (-(round2 ((e - fin.2.2) * 100 + comm))) mL mP comm
    if e < -sd.width then .nonePy
    else .trade {
      spreadType := .put_spread, width := sd.width, offset := sd.offset,
      stopLossType := sd.stopLossType, takeProfitLevel := sd.takeProfitLevel,
      strikes := (sellLeg, buyLeg), maxLoss := mL, maxProfit := mP,
      entryTime := ⟨day, esec⟩, entryPrice := e,
      exitTime := ⟨day, fin.1⟩, exitPrice := fin.2.2,
      pnl := pnl, outcome := fin.2.1, currentStatus := .active,
      breakEvenLevel := beLvl,
      breakEvenTime := be?.map (fun s => ⟨day, s⟩),
      breakEvenTimes := beTimes }

/-- Body of `CallCreditSpread.get_spread_data` on a non-empty joined series. -/
def callOutput (day esec : ℕ) (sd : StratData) (slip comm : ℚ)
    (sellLeg buyLeg eodSpx : ℚ) (r0 : JoinedRow) (rest : List JoinedRow) :
    SpreadResult :=
  let rows := r0 :: rest
  let e := callRowPrice sd.width slip r0
  let mL := callMaxLoss sellLeg buyLeg e
  let mP := maxProfitOf e
  let beLvl := callBreakEvenLevel sellLeg e
  let be? := callBE? beLvl rows
  let tp? := callTP? sd.width slip (tpThreshold e sd.takeProfitLevel) rows
  let lastT := (rest.getLastD r0).time
  let res := resolveExit sd.stopLossType be? tp? lastT
  let beTimes := (rows.filter (fun r => decide (r.spx > beLvl))).map (·.time)
  match rows.find? (fun r => r.time == res.1) with
  | none => .emptyFrame
  | some rx =>
    let xp := callRowPrice sd.width slip rx
    let fin : ℕ × Option Outcome × ℚ :=
      if lastT < 78600 then
        if eodSpx < sellLeg then (lastT, some .take_profit, tpThreshold e sd.takeProfitLevel)
        else (79200, some .expire, -sd.width)
      else (res.1, res.2, xp)
    let pnl := clampPnl (-(round2 ((e - fin.2.2) * 100 + comm))) mL mP comm
    if e < -sd.width then .nonePy
    else .trade {
      spreadType := .call_spread, width := sd.width, offset := sd.offset,
      stopLossType := sd.stopLossType, takeProfitLevel := sd.takeProfitLevel,
      strikes := (sellLeg, buyLeg), maxLoss := mL, maxProfit := mP,
      entryTime := ⟨day, esec⟩, entryPrice := e,
      exitTime := ⟨day, fin.1⟩, exitPrice := fin.2.2,
      pnl := pnl, outcome := fin.2.1, currentStatus := .active,
      breakEvenLevel := beLvl,
      breakEvenTime := be?.map (fun s => ⟨day, s⟩),
      breakEvenTimes := beTimes }

/-- `PutCreditSpread.get_spread_data`.  `chain` is the put option-chain for
the entry date; `forced` carries the `sell_leg`/`buy_leg` arguments used by
the hedge path.  An empty join makes the first row lookup raise, which the
broad `except` turns into the empty dataframe. -/
def putGetSpreadData (chain : ℚ → List QuoteRow) (spx eodSpx : ℚ)
    (day esec : ℕ) (sd : StratData) (slip comm : ℚ)
    (forced : Option (ℚ × ℚ)) : SpreadResult :=
  let legs := match forced with
    | some pr => pr
    | none => putStrikesSel spx sd.offset sd.width
  match joinedSeries chain esec legs.1 legs.2 with
  | [] => .emptyFrame
  | r0 :: rest => putOutput day esec sd slip comm legs.1 legs.2 eodSpx r0 rest

/-- `CallCreditSpread.get_spread_data`. -/
def callGetSpreadData (chain : ℚ → List QuoteRow) (spx eodSpx : ℚ)
    (day esec : ℕ) (sd : StratData) (slip comm : ℚ)
    (forced : Option (ℚ × ℚ)) : SpreadResult :=
  let legs := match forced with
    | some pr => pr
    | none => callStrikesSel spx sd.offset sd.width
  match joinedSeries chain esec legs.1 legs.2 with
  | [] => .emptyFrame
  | r0 :: rest => callOutput day esec sd slip comm legs.1 legs.2 eodSpx r0 rest

/-! ## Simulator (`simulator.py`)

The event loop walks every business day, and within a day every minute from
`15:30:00` (second 55800) to `22:00:00` (second 79200).  The database
queries are modelled by an environment: the underlying price series and the
two option chains (per day and strike).  A `none` outcome of a step models
an uncaught Python exception aborting the run — in particular the
`AttributeError` raised when `get_spread_data` returns `None` and the
simulator calls `.is_empty()` on it. -/

/-- The external data: underlying prices (`query_with_conditions`) and the
put/call option chains (`query_option_chain`), indexed by day and strike. -/
structure Env where
  spx : List (Timestamp × ℚ)
  chainP : ℕ → ℚ → List QuoteRow
  chainC : ℕ → ℚ → List QuoteRow

/-- Mutable simulator state: the trade ledger `self.trades` and the per-day
reservation sets `used_put_strikes` / `used_call_strikes`. -/
structure SimState where
  trades : List Trade
  usedPut : List ℚ
  usedCall : List ℚ
deriving DecidableEq, Repr

def initState : SimState := ⟨[], [], []⟩

/-- `self.slippage = 0.05` in `Simulator.__init__`. -/
def simSlippage : ℚ := 1/20

/-- `self.commission = 1.5` in `Simulator.__init__`. -/
def simCommission : ℚ := 3/2

/-- Number of active trades whose `spread_type` is the strategy's name. -/
def activeCount (trades : List Trade) (nm : SpreadType) : ℕ :=
  (trades.filter (fun t => t.spreadType == nm && t.currentStatus == Status.active)).length

/-- Python `set.add`. -/
def addStrike (l : List ℚ) (s : ℚ) : List ℚ := if s ∈ l then l else l ++ [s]

/-- `entry_time` of the hedge spread: for `box`, the primary's
`break_even_time` (if any); for `time_box`, the strategy's window end on
the same date, dropped when the primary's exit_time is strictly earlier. -/
def hedgeEntry? (sd : StratData) (t : Trade) (day : ℕ) : Option Timestamp :=
  match sd.hedge with
  | .box => t.breakEvenTime
  | .time_box =>
    if Timestamp.lt t.exitTime ⟨day, sd.endWindow⟩ then none
    else some ⟨day, sd.endWindow⟩
  | .none_ => none

/-- Commit a freshly built trade on the given side if none of its strikes
is in that side's reservation set: `any(strike in used_X for strike in
strikes)` guarding `used_X.add(...)` and `pl.concat`. -/
def commitSide (st : SimState) (side : SpreadType) (t : Trade) : SimState :=
  match side with
  | .call_spread =>
    if t.strikes.1 ∈ st.usedCall ∨ t.strikes.2 ∈ st.usedCall then st
    else { st with
      usedCall := addStrike (addStrike st.usedCall t.strikes.1) t.strikes.2,
      trades := st.trades ++ [t] }
  | .put_spread =>
    if t.strikes.1 ∈ st.usedPut ∨ t.strikes.2 ∈ st.usedPut then st
    else { st with
      usedPut := addStrike (addStrike st.usedPut t.strikes.1) t.strikes.2,
      trades := st.trades ++ [t] }

/-- The `call_spread` branch of the open-check: build the call spread,
commit it if its strikes are free, then (independently of that commit)
evaluate the hedge and commit the opposite-side put spread built from the
call's strikes reversed. -/
def openCall (env : Env) (day sec : ℕ) (cp ep : ℚ) (sd : StratData)
    (st : SimState) : Option SimState :=
  match callGetSpreadData (env.chainC day) cp ep day sec sd simSlippage simCommission none with
  | .nonePy => none
  | .emptyFrame => some st
  | .trade tc =>
    let st1 := commitSide st .call_spread tc
    match hedgeEntry? sd tc day with
    | none => some st1
    | some het =>
      match putGetSpreadData (env.chainP het.day) cp ep het.day het.sec sd
          simSlippage simCommission (some (tc.strikes.2, tc.strikes.1)) with
      | .nonePy => none
      | .emptyFrame => some st1
      | .trade th => some (commitSide st1 .put_spread th)

/-- The `put_spread` branch of the open-check (mirror of `openCall`). -/
def openPut (env : Env) (day sec : ℕ) (cp ep : ℚ) (sd : StratData)
    (st : SimState) : Option SimState :=
  match putGetSpreadData (env.chainP day) cp ep day sec sd simSlippage simCommission none with
  | .nonePy => none
  | .emptyFrame => some st
  | .trade tp' =>
    let st1 := commitSide st .put_spread tp'
    match hedgeEntry? sd tp' day with
    | none => some st1
    | some het =>
      match callGetSpreadData (env.chainC het.day) cp ep het.day het.sec sd
          simSlippage simCommission (some (tp'.strikes.2, tp'.strikes.1)) with
      | .nonePy => none
      | .emptyFrame => some st1
      | .trade th => some (commitSide st1 .call_spread th)

/-- The CHECK FOR NEW TRADES section for one strategy at one minute:
recount active positions, and when under capacity and the minute is an
entry candidate, run the side's branch. -/
def openPhase (env : Env) (day sec : ℕ) (cp ep : ℚ) (nm : SpreadType)
    (sd : StratData) (st : SimState) : Option SimState :=
  if activeCount st.trades nm < sd.maxActive then
    if (⟨day, sec⟩ : Timestamp) ∈ sd.entries then
      match nm with
      | .call_spread => openCall env day sec cp ep sd st
      | .put_spread => openPut env day sec cp ep sd st
    else some st
  else some st

/-- The close mask: `exit_time <= current_time` and status still active. -/
def isClosing (now : Timestamp) (t : Trade) : Bool :=
  Timestamp.le t.exitTime now && t.currentStatus == Status.active

/-- Marking one trade: masked rows get status `close`, others are kept. -/
def closeTrade (now : Timestamp) (t : Trade) : Trade :=
  if isClosing now t then { t with currentStatus := Status.close } else t

/-- The UPDATE ACTIVE TRADES STATUS section: release the strikes of every
active trade whose `exit_time <= current_time`, and mark it `close`. -/
def closePhase (st : SimState) (now : Timestamp) : SimState :=
  let closing := st.trades.filter (isClosing now)
  { trades := st.trades.map (closeTrade now),
    usedPut := st.usedPut.filter (fun s =>
      !(closing.any (fun t =>
        t.spreadType == SpreadType.put_spread &&
          (t.strikes.1 == s || t.strikes.2 == s)))),
    usedCall := st.usedCall.filter (fun s =>
      !(closing.any (fun t =>
        t.spreadType == SpreadType.call_spread &&
          (t.strikes.1 == s || t.strikes.2 == s)))) }

/-- One strategy's turn within one minute: the open-check (guarded by the
truthiness of the current and end-of-day prices — `None` or `0.0` both skip
it) followed by the close-check. -/
def stratStep (env : Env) (day sec : ℕ) (cp? ep? : Option ℚ)
    (nm : SpreadType) (sd : StratData) (st : SimState) : Option SimState :=
  let afterOpen : Option SimState :=
    match cp?, ep? with
    | some cp, some ep =>
      if cp = 0 ∨ ep = 0 then some st
      else openPhase env day sec cp ep nm sd st
    | _, _ => some st
  afterOpen.map (fun st1 => closePhase st1 ⟨day, sec⟩)

/-- One minute of the loop: compute the current price and the day's last
price, then give every strategy its turn in order. -/
def processMinute (env : Env) (strats : List (SpreadType × StratData))
    (day sec : ℕ) (st : SimState) : Option SimState :=
  let cp? := (env.spx.find? (fun pr => pr.1 == (⟨day, sec⟩ : Timestamp))).map (·.2)
  let ep? := ((env.spx.filter (fun pr => pr.1.day == day)).getLast?).map (·.2)
  strats.foldl
    (fun a p => a.bind (stratStep env day sec cp? ep? p.1 p.2)) (some st)

/-- The minutes `15:30:00, 15:31:00, ..., 22:00:00` of a trading day. -/
def tradingMinutes : List ℕ := (List.range 391).map (fun i => 55800 + 60 * i)

/-- The first `n` minutes of one day's loop, starting from freshly reset
per-day reservation sets. -/
def runDayUpTo (env : Env) (strats : List (SpreadType × StratData))
    (day : ℕ) (n : ℕ) (st : SimState) : Option SimState :=
  (tradingMinutes.take n).foldl
    (fun a sec => a.bind (processMinute env strats day sec))
    (some { st with usedPut := [], usedCall := [] })

/-- One full day of the loop. -/
def processDay (env : Env) (strats : List (SpreadType × StratData))
    (day : ℕ) (st : SimState) : Option SimState :=
  runDayUpTo env strats day 391 st

/-- `Simulator.run_simulator`'s main loop over the business days. -/
def runSim (env : Env) (strats : List (SpreadType × StratData))
    (days : List ℕ) (st : SimState) : Option SimState :=
  days.foldl (fun a d => a.bind (processDay env strats d)) (some st)

/-- A state mid-run: after all of `days` and then `n` minutes of day `d`. -/
def runSimUpTo (env : Env) (strats : List (SpreadType × StratData))
    (days : List ℕ) (d : ℕ) (n : ℕ) (st : SimState) : Option SimState :=
  (runSim env strats days st).bind (runDayUpTo env strats d n)

/-! ## Verification predicates -/

/-- Every trade of the ledger has been marked closed. -/
def AllClosed (l : List Trade) : Prop := ∀ t ∈ l, t.currentStatus = .close

/-- The external data respects the session window: every option-chain row's
time is at most `22:00:00` (second 79200), matching the interface contract
of the quote store (quotes run from the queried minute to session end). -/
def EnvWF (env : Env) : Prop :=
  ∀ day k, (∀ r ∈ env.chainP day k, r.time ≤ 79200) ∧
    (∀ r ∈ env.chainC day k, r.time ≤ 79200)

/-- Two trades share no strike. -/
def strikesDisjoint (a b : Trade) : Prop :=
  a.strikes.1 ≠ b.strikes.1 ∧ a.strikes.1 ≠ b.strikes.2 ∧
  a.strikes.2 ≠ b.strikes.1 ∧ a.strikes.2 ≠ b.strikes.2

/-- No two distinct trades that are simultaneously active and on the same
side share a strike (the reservation invariant of the claim). -/
def NoSharedStrikes (l : List Trade) : Prop :=
  l.Pairwise (fun a b => a.currentStatus = .active → b.currentStatus = .active →
    a.spreadType = b.spreadType → strikesDisjoint a b)

/-- The reservation set of a side. -/
def sideUsed (st : SimState) : SpreadType → List ℚ
  | .put_spread => st.usedPut
  | .call_spread => st.usedCall

/-- Every active trade's strikes are in its side's reservation set. -/
def StrikesReserved (st : SimState) : Prop :=
  ∀ t ∈ st.trades, t.currentStatus = .active →
    t.strikes.1 ∈ sideUsed st t.spreadType ∧ t.strikes.2 ∈ sideUsed st t.spreadType

/-- Every active trade exits on the given day, no later than 22:00:00. -/
def ExitBounded (day : ℕ) (l : List Trade) : Prop :=
  ∀ t ∈ l, t.currentStatus = .active →
    t.exitTime.day = day ∧ t.exitTime.sec ≤ 79200

/-- The within-day reservation invariant. -/
def ResInv (day : ℕ) (st : SimState) : Prop :=
  StrikesReserved st ∧ NoSharedStrikes st.trades ∧ ExitBounded day st.trades

/-- Per-strategy capacity: the number of active trades bearing a strategy's
spread type never exceeds that strategy's `max_active_positions`. -/
def CapInv (strats : List (SpreadType × StratData)) (trades : List Trade) : Prop :=
  ∀ p ∈ strats, activeCount trades p.1 ≤ p.2.maxActive

/-! ## Spec-side definitions and concrete scenarios -/

/-- Modelled from the spec's pricing rule: the sentinel `-width` when both
legs' bid and ask quotes are all zero, otherwise the mid of the two leg
differences, rounded to the nearest 0.05 tick, plus slippage, rounded to
2 decimals, the four quote fields clamped to `≥ 0`. -/
def specRoundedPrice (w slip buyAsk buyBid sellAsk sellBid : ℚ) : ℚ :=
  if buyAsk = 0 ∧ buyBid = 0 ∧ sellAsk = 0 ∧ sellBid = 0 then -w
  else
    round2 (tickRound (((max 0 buyAsk - max 0 sellAsk) +
      (max 0 buyBid - max 0 sellBid)) / 2) + slip)

/-- Placeholder trade used as `Option.getD` fallback when naming the trade
produced by a concrete builder run (the runs below always produce one). -/
def trDefault : Trade :=
  { spreadType := .put_spread, width := 0, offset := 0,
    stopLossType := .expire, takeProfitLevel := 0, strikes := (0, 0),
    maxLoss := 0, maxProfit := 0, entryTime := ⟨0, 0⟩, entryPrice := 0,
    exitTime := ⟨0, 0⟩, exitPrice := 0, pnl := 0, outcome := none,
    currentStatus := .active, breakEvenLevel := 0, breakEvenTime := none,
    breakEvenTimes := [] }

/-- Scenario for C1: `bep` policy, a take-profit minute (78660) strictly
earlier than the break-even minute (78720), quotes ending at `21:52`. -/
def c1sd : StratData :=
  { entries := [], maxActive := 1, width := 5, offset := 0,
    stopLossType := .bep, takeProfitLevel := 1/2, hedge := .none_,
    startWindow := 0, endWindow := 0 }

def c1chain : ℚ → List QuoteRow := fun k =>
  if k = 100 then
    [⟨78600, 1, 1, (100.5 : ℚ)⟩, ⟨78660, 1/2, 1/2, (100.5 : ℚ)⟩, ⟨78720, 1, 1, 99⟩]
  else if k = 95 then
    [⟨78600, 1/2, 1/2, (100.5 : ℚ)⟩, ⟨78660, (0.45 : ℚ), (0.45 : ℚ), (100.5 : ℚ)⟩,
      ⟨78720, 1/2, 1/2, 99⟩]
  else []

def c1rows : List JoinedRow := joinedSeries c1chain 78600 100 95

def c1cexTrade : Trade :=
  ((putGetSpreadData c1chain (100.5 : ℚ) (100.5 : ℚ) 0 78600 c1sd (1/20) (3/2)
    (some (100, 95))).getTrade?).getD trDefault

/-- Scenario for C2: a slightly positive (debit) entry price accepted by the
builder; the raw pnl `-1.5` sits strictly between `max_profit - commission`
and `max_profit`, so the clamp keeps it. -/
def c2sd : StratData :=
  { entries := [], maxActive := 1, width := 5, offset := 0,
    stopLossType := .expire, takeProfitLevel := 1/2, hedge := .none_,
    startWindow := 0, endWindow := 0 }

def c2chain : ℚ → List QuoteRow := fun k =>
  if k = 100 then [⟨78600, 1, 1, 200⟩]
  else if k = 95 then [⟨78600, 1, 1, 200⟩]
  else []

def c2cexTrade : Trade :=
  ((putGetSpreadData c2chain 200 200 0 78600 c2sd (1/100) (3/2)
    (some (100, 95))).getTrade?).getD trDefault

/-- Scenario for C3/C5 witnesses and the C3 counterexample: a call strategy
with `time_box` hedging (capacity 2) next to a put strategy of capacity 1.
Each of the first two minutes opens a call spread whose hedge is an
opposite-side put spread; the puts are committed with no capacity check. -/
def c3sdCall : StratData :=
  { entries := [⟨0, 55800⟩, ⟨0, 55860⟩], maxActive := 2, width := 5, offset := 0,
    stopLossType := .expire, takeProfitLevel := 1/2, hedge := .time_box,
    startWindow := 55800, endWindow := 77400 }

def c3sdPut : StratData :=
  { entries := [], maxActive := 1, width := 5, offset := 0,
    stopLossType := .expire, takeProfitLevel := 1/2, hedge := .none_,
    startWindow := 55800, endWindow := 77400 }

def sellRowsAt (a b : ℕ) (spx : ℚ) : List QuoteRow :=
  [⟨a, 1, 1, spx⟩, ⟨b, 1, 1, spx⟩]

def buyRowsAt (a b : ℕ) (spx : ℚ) : List QuoteRow :=
  [⟨a, 1/2, 1/2, spx⟩, ⟨b, 1/2, 1/2, spx⟩]

def c3env : Env :=
  { spx := [(⟨0, 55800⟩, 100), (⟨0, 55860⟩, 110)],
    chainC := fun _ k =>
      if k = 100 then sellRowsAt 55800 78600 100
      else if k = 105 then buyRowsAt 55800 78600 100
      else if k = 110 then sellRowsAt 55860 78600 100
      else if k = 115 then buyRowsAt 55860 78600 100
      else [],
    chainP := fun _ k =>
      if k = 105 then sellRowsAt 77400 78600 200
      else if k = 100 then buyRowsAt 77400 78600 200
      else if k = 115 then sellRowsAt 77400 78600 200
      else if k = 110 then buyRowsAt 77400 78600 200
      else [] }

def c3strats : List (SpreadType × StratData) :=
  [(.call_spread, c3sdCall), (.put_spread, c3sdPut)]

/-- Scenario for C9: `box` hedging.  At the second minute the primary call
spread is rejected (its strikes (100, 105) are still reserved by the first
minute's call), yet its hedge put is committed. -/
def c9sd : StratData :=
  { entries := [⟨0, 55800⟩, ⟨0, 55860⟩], maxActive := 2, width := 5, offset := 0,
    stopLossType := .expire, takeProfitLevel := 1/2, hedge := .box,
    startWindow := 55800, endWindow := 77400 }

def c9env : Env :=
  { spx := [(⟨0, 55800⟩, 100), (⟨0, 55860⟩, 100)],
    chainC := fun _ k =>
      if k = 100 then [⟨55800, 1, 1, 100⟩, ⟨55860, 1, 1, 100⟩, ⟨78600, 1, 1, 100⟩]
      else if k = 105 then
        [⟨55800, 1/2, 1/2, 100⟩, ⟨55860, 1, 1, 100⟩, ⟨78600, 1/2, 1/2, 100⟩]
      else [],
    chainP := fun _ k =>
      if k = 105 then [⟨55860, 1, 1, 200⟩, ⟨78600, 1, 1, 200⟩]
      else if k = 100 then [⟨55860, 1/2, 1/2, 200⟩, ⟨78600, 1/2, 1/2, 200⟩]
      else [] }

def c9strats : List (SpreadType × StratData) := [(.call_spread, c9sd)]

def c9primary : Trade :=
  ((callGetSpreadData (c9env.chainC 0) 100 100 0 55860 c9sd simSlippage
    simCommission none).getTrade?).getD trDefault

/-- Witness state for C9: strikes 100 and 105 already reserved on the call
side, so the primary call spread is rejected. -/
def c9wState : SimState := ⟨[], [], [100, 105]⟩

/-- The hedge put spread built (with the primary's strikes reversed) at the
primary's break-even minute in the C9 scenario. -/
def c9wHedge : Trade :=
  ((putGetSpreadData (c9env.chainP 0) 100 100 0 55860 c9sd simSlippage
    simCommission (some (105, 100))).getTrade?).getD trDefault

/-- The hedge entry timestamp of the C9 scenario. -/
def c9wHet : Timestamp := ⟨0, 55860⟩

/-- Scenario for C6: all-quote data making the put spread's entry price
`-6.05 < -width = -5`, so `get_spread_data` returns Python `None`. -/
def c6sd : StratData :=
  { entries := [⟨0, 55800⟩], maxActive := 1, width := 5, offset := 0,
    stopLossType := .expire, takeProfitLevel := 1/2, hedge := .none_,
    startWindow := 55800, endWindow := 77400 }

def c6env : Env :=
  { spx := [(⟨0, 55800⟩, 100)],
    chainP := fun _ k =>
      if k = 100 then [⟨55800, (6.3 : ℚ), (6.3 : ℚ), 100⟩]
      else if k = 95 then [⟨55800, (0.2 : ℚ), (0.2 : ℚ), 100⟩]
      else [],
    chainC := fun _ _ => [] }

/-- The empty market: no index prices and empty option chains. -/
def envE : Env := { spx := [], chainP := fun _ _ => [], chainC := fun _ _ => [] }

/-- Witness trade for the strike-release half of C5: an active put spread on
strikes (100, 95) due to exit at 16:40. -/
def c5wTrade : Trade :=
  { trDefault with
    spreadType := .put_spread, currentStatus := .active,
    strikes := (100, 95), exitTime := ⟨0, 60000⟩ }

/-- Witness state for C5: the single active put trade with both its strikes
reserved on the put side. -/
def c5wState : SimState := ⟨[c5wTrade], [100, 95], []⟩

/-- Witness scenario for C1: only a break-even minute exists (at 78600),
no take-profit minute, quotes ending at 78660 (past the 21:50 cutoff). -/
def c1wChain : ℚ → List QuoteRow := fun k =>
  if k = 100 then [⟨78600, 1, 1, 99⟩, ⟨78660, 1, 1, 99⟩]
  else if k = 95 then [⟨78600, 1/2, 1/2, 99⟩, ⟨78660, 1/2, 1/2, 99⟩]
  else []

def c1wTrade : Trade :=
  ((putGetSpreadData c1wChain 100 99 0 78600 c1sd (1/20) (3/2)
    (some (100, 95))).getTrade?).getD trDefault

/-- The joined series of the C1 witness scenario: head row and tail. -/
def c1wr0 : JoinedRow := ⟨78600, 1, 1, 1/2, 1/2, 99⟩

def c1wrest : List JoinedRow := [⟨78660, 1, 1, 1/2, 1/2, 99⟩]

/-- Witness scenario for C8: a single quote minute at 60000 (16:40), well
before the 21:50 cutoff, with `session_eod_price 200 > short_strike 100`. -/
def c8wChain : ℚ → List QuoteRow := fun k =>
  if k = 100 then [⟨60000, 1, 1, 200⟩]
  else if k = 95 then [⟨60000, 1/2, 1/2, 200⟩]
  else []

def c8wTrade : Trade :=
  ((putGetSpreadData c8wChain 100 200 0 60000 c1sd (1/20) (3/2)
    (some (100, 95))).getTrade?).getD trDefault

/-- The joined series of the C8 witness scenario: a single row. -/
def c8wr0 : JoinedRow := ⟨60000, 1, 1, 1/2, 1/2, 200⟩

def c8wrest : List JoinedRow := []

/-! ## Rounding lemmas -/

theorem floor_le_pyRound (x : ℚ) : ⌊x⌋ ≤ pyRound x := by
  unfold pyRound
  split
  · exact le_refl _
  · split
    · exact Int.le_add_one (le_refl _)
    · split
      · exact le_refl _
      · exact Int.le_add_one (le_refl _)

theorem pyRound_le_floor_add_one (x : ℚ) : pyRound x ≤ ⌊x⌋ + 1 := by
  unfold pyRound
  split
  · exact Int.le_add_one (le_refl _)
  · split
    · exact le_refl _
    · split
      · exact Int.le_add_one (le_refl _)
      · exact le_refl _

theorem pyRound_mono {x y : ℚ} (h : x ≤ y) : pyRound x ≤ pyRound y := by
  rcases lt_or_le ⌊x⌋ ⌊y⌋ with hf | hf
  · calc pyRound x ≤ ⌊x⌋ + 1 := pyRound_le_floor_add_one x
    _ ≤ ⌊y⌋ := hf
    _ ≤ pyRound y := floor_le_pyRound y
  · have hfe : ⌊x⌋ = ⌊y⌋ := le_antisymm (Int.floor_le_floor h) hf
    have hfr : Int.fract x ≤ Int.fract y := by
      have hx := Int.floor_add_fract x
      have hy := Int.floor_add_fract y
      have : (⌊x⌋ : ℚ) = (⌊y⌋ : ℚ) := by exact_mod_cast congrArg Int.cast hfe
      linarith
    unfold pyRound
    rw [hfe]
    split_ifs <;> first | omega | linarith

theorem pyRound_neg (x : ℚ) : pyRound (-x) = - pyRound x := by
  by_cases h0 : Int.fract x = 0
  · have hxf : ((⌊x⌋ : ℚ)) = x := by
      have := Int.floor_add_fract x
      rw [h0] at this
      linarith
    have hnx : (-x) = ((-⌊x⌋ : ℤ) : ℚ) := by push_cast; linarith
    have hfl : ⌊-x⌋ = -⌊x⌋ := by rw [hnx, Int.floor_intCast]
    have hfr : Int.fract (-x) = 0 := by rw [hnx, Int.fract_intCast]
    unfold pyRound
    rw [hfl, hfr, h0]
    norm_num
  · have h1 : Int.fract (-x) = 1 - Int.fract x := Int.fract_neg h0
    have hr0 : 0 ≤ Int.fract x := Int.fract_nonneg x
    have hr1 : Int.fract x < 1 := Int.fract_lt_one x
    have hfl : ⌊-x⌋ = -⌊x⌋ - 1 := by
      have hx := Int.floor_add_fract x
      have hnx := Int.floor_add_fract (-x)
      rw [h1] at hnx
      have hc : ((⌊-x⌋ : ℚ)) = -(⌊x⌋ : ℚ) - 1 := by linarith
      exact_mod_cast hc
    unfold pyRound
    rw [hfl, h1]
    split_ifs <;> first | omega | linarith

theorem round2_mono {x y : ℚ} (h : x ≤ y) : round2 x ≤ round2 y := by
  unfold round2
  have := @pyRound_mono (x * 100) (y * 100) (by linarith)
  have hc : ((pyRound (x * 100) : ℚ)) ≤ (pyRound (y * 100) : ℚ) := by exact_mod_cast this
  linarith

theorem round2_neg (x : ℚ) : round2 (-x) = - round2 x := by
  unfold round2
  have : pyRound (-x * 100) = - pyRound (x * 100) := by
    rw [show -x * 100 = -(x * 100) by ring, pyRound_neg]
  rw [this]
  push_cast
  ring

/-! ## Claim theorems -/

/-- C7: without forced legs, the short strike is `round(price/5)*5` shifted
by `offset` (added for the put builder, subtracted for the call builder) and
the long strike is the short strike shifted by `width` away from the price
(down for puts, up for calls); in particular price 5914.54, offset 0,
width 10 give the put strikes short=5915, long=5905. -/
theorem C7_strike_selection :
    (∀ spx offset w : ℚ,
        (putStrikesSel spx offset w).1 = (pyRound (spx / 5) : ℚ) * 5 + offset ∧
        (putStrikesSel spx offset w).2 = (putStrikesSel spx offset w).1 - w ∧
        (callStrikesSel spx offset w).1 = (pyRound (spx / 5) : ℚ) * 5 - offset ∧
        (callStrikesSel spx offset w).2 = (callStrikesSel spx offset w).1 + w) ∧
    putStrikesSel (5914.54 : ℚ) 0 10 = (5915, 5905) := by
  exact ⟨fun spx offset w => ⟨rfl, rfl, rfl, rfl⟩, by decide⟩

/-- C4 counterexample: with the buy leg quoted 0/0 but the sell leg quoted
1/1, the put builder returns the sentinel `-width = -5`, while the claim's
formula (sentinel only when both legs are all zero) gives `-0.95`. -/
theorem C4_counterexample :
    putCalcRoundedPrice 5 (1/20) 0 0 1 1 = -5 ∧
    specRoundedPrice 5 (1/20) 0 0 1 1 = (-0.95 : ℚ) ∧
    putCalcRoundedPrice 5 (1/20) 0 0 1 1 ≠ specRoundedPrice 5 (1/20) 0 0 1 1 := by
  decide

/-- C4 amended: the call builder computes exactly the claimed price (sentinel
iff all four quotes are zero, otherwise the clamped tick-rounded mid plus
slippage rounded to 2 decimals); the put builder instead applies the
sentinel whenever EITHER leg's bid and ask are both zero, and agrees with
the claimed formula elsewhere. -/
theorem C4_price_reconstruction_amended :
    ∀ w slip a b c d : ℚ,
      callCalcRoundedPrice w slip a b c d = specRoundedPrice w slip a b c d ∧
      putCalcRoundedPrice w slip a b c d =
        (if (a = 0 ∧ b = 0) ∨ (c = 0 ∧ d = 0) then -w
         else specRoundedPrice w slip a b c d) := by
  intro w slip a b c d
  constructor
  · rfl
  · unfold putCalcRoundedPrice specRoundedPrice
    split_ifs <;> first | rfl | tauto

/-- C6 (code bug): when the reconstructed entry price is below `-width`
(here `-6.05 < -5`), `get_spread_data` returns Python `None`; the simulator
then calls `.is_empty()` on it, raising an uncaught `AttributeError` that
aborts the run (modelled as the `none` run result), instead of skipping the
trade and continuing. -/
theorem C6_invalid_entry_aborts_run :
    putRowPrice c6sd.width simSlippage
      ⟨55800, (6.3 : ℚ), (6.3 : ℚ), (0.2 : ℚ), (0.2 : ℚ), 100⟩ = (-6.05 : ℚ) ∧
    (-6.05 : ℚ) < -c6sd.width ∧
    putGetSpreadData (c6env.chainP 0) 100 100 0 55800 c6sd simSlippage
      simCommission none = .nonePy ∧
    runDayUpTo c6env [(.put_spread, c6sd)] 0 1 initState = none := by
  decide

/-- C1 counterexample: `bep` policy, first break-even minute 78720, first
take-profit minute 78660 (the earlier of the two, and the last quote minute
is past the 21:50 cutoff so no override fires).  The trade exits at the
take-profit minute but its outcome is left `None`, not `take_profit` as the
claim states. -/
theorem C1_counterexample :
    putBE? (putBreakEvenLevel 100 (-9/20)) c1rows = some 78720 ∧
    putTP? 5 (1/20) (tpThreshold (-9/20) (1/2)) c1rows = some 78660 ∧
    putGetSpreadData c1chain (100.5 : ℚ) (100.5 : ℚ) 0 78600 c1sd (1/20) (3/2)
      (some (100, 95)) = .trade c1cexTrade ∧
    c1cexTrade.exitTime = ⟨0, 78660⟩ ∧
    c1cexTrade.outcome = none := by
  decide

/-- C2 counterexample: entry price 0.01, exit price 0.01, commission 1.5
give raw pnl `-1.5`; `max_profit = -1`, `max_loss = -501`, so the clamp
keeps `-1.5`, which exceeds `max_profit - commission = -2.5` — the claimed
interval bound fails. -/
theorem C2_counterexample :
    putGetSpreadData c2chain 200 200 0 78600 c2sd (1/100) (3/2)
      (some (100, 95)) = .trade c2cexTrade ∧
    c2cexTrade.pnl = -3/2 ∧
    c2cexTrade.maxProfit = -1 ∧
    c2cexTrade.maxLoss = -501 ∧
    ¬ c2cexTrade.pnl ≤ c2cexTrade.maxProfit - 3/2 := by
  decide

/-- C3 counterexample: after two minutes of the run, the hedge puts opened
by the call strategy make the active `put_spread` count 2, above the put
strategy's `max_active_positions = 1` — the hedge is committed with no
capacity check. -/
theorem C3_counterexample :
    (SpreadType.put_spread, c3sdPut) ∈ c3strats ∧
    c3sdPut.maxActive = 1 ∧
    (runDayUpTo c3env c3strats 0 2 initState).map
      (fun st => activeCount st.trades .put_spread) = some 2 := by
  decide

/-- C9 counterexample: at minute 55860 the primary call spread is built
(strikes (100, 105)) but rejected because those strikes are still reserved;
its `box` hedge put is nevertheless committed — the ledger after two minutes
holds the first call and the hedge put entered at 55860 with no committed
primary at that minute. -/
theorem C9_counterexample :
    callGetSpreadData (c9env.chainC 0) 100 100 0 55860 c9sd simSlippage
      simCommission none = .trade c9primary ∧
    c9primary.strikes = (100, 105) ∧
    (runDayUpTo c9env c9strats 0 2 initState).map
      (fun st => st.trades.map (fun t => (t.spreadType, t.entryTime))) =
      some [(.call_spread, ⟨0, 55800⟩), (.put_spread, ⟨0, 55860⟩)] := by
  decide

/-- C1 amended: for a `bep` trade built from a non-empty joined series, when
no end-of-session override applies (last quote minute at or past 21:50): if
both a first break-even minute `b` and a first take-profit minute `p` exist,
the exit is at the earlier of the two, with outcome `stop_loss` when `b < p`
but with the outcome left UNSET (`None`, not `take_profit`) when `p ≤ b`;
if only `b` exists, outcome `stop_loss` at `b`; if only `p` exists, outcome
`take_profit` at `p`; if neither, outcome `expire` at the last joined
minute.  Both builders behave identically. -/
theorem C1_exit_resolution_amended :
    (∀ (chain : ℚ → List QuoteRow) (spx eod : ℚ) (day esec : ℕ) (sd : StratData)
      (slip comm : ℚ) (forced : Option (ℚ × ℚ)) (sellLeg buyLeg : ℚ)
      (r0 : JoinedRow) (rest : List JoinedRow) (t : Trade),
      sd.stopLossType = .bep →
      (match forced with
        | some pr => pr
        | none => putStrikesSel spx sd.offset sd.width) = (sellLeg, buyLeg) →
      joinedSeries chain esec sellLeg buyLeg = r0 :: rest →
      78600 ≤ (rest.getLastD r0).time →
      putGetSpreadData chain spx eod day esec sd slip comm forced = .trade t →
      (match putBE? (putBreakEvenLevel sellLeg (putRowPrice sd.width slip r0)) (r0 :: rest),
             putTP? sd.width slip
               (tpThreshold (putRowPrice sd.width slip r0) sd.takeProfitLevel) (r0 :: rest) with
       | some b, some p =>
          (b < p → t.exitTime = ⟨day, b⟩ ∧ t.outcome = some .stop_loss) ∧
          (¬ b < p → t.exitTime = ⟨day, p⟩ ∧ t.outcome = none)
       | some b, none => t.exitTime = ⟨day, b⟩ ∧ t.outcome = some .stop_loss
       | none, some p => t.exitTime = ⟨day, p⟩ ∧ t.outcome = some .take_profit
       | none, none =>
          t.exitTime = ⟨day, (rest.getLastD r0).time⟩ ∧ t.outcome = some .expire)) ∧
    (∀ (chain : ℚ → List QuoteRow) (spx eod : ℚ) (day esec : ℕ) (sd : StratData)
      (slip comm : ℚ) (forced : Option (ℚ × ℚ)) (sellLeg buyLeg : ℚ)
      (r0 : JoinedRow) (rest : List JoinedRow) (t : Trade),
      sd.stopLossType = .bep →
      (match forced with
        | some pr => pr
        | none => callStrikesSel spx sd.offset sd.width) = (sellLeg, buyLeg) →
      joinedSeries chain esec sellLeg buyLeg = r0 :: rest →
      78600 ≤ (rest.getLastD r0).time →
      callGetSpreadData chain spx eod day esec sd slip comm forced = .trade t →
      (match callBE? (callBreakEvenLevel sellLeg (callRowPrice sd.width slip r0)) (r0 :: rest),
             callTP? sd.width slip
               (tpThreshold (callRowPrice sd.width slip r0) sd.takeProfitLevel) (r0 :: rest) with
       | some b, some p =>
          (b < p → t.exitTime = ⟨day, b⟩ ∧ t.outcome = some .stop_loss) ∧
          (¬ b < p → t.exitTime = ⟨day, p⟩ ∧ t.outcome = none)
       | some b, none => t.exitTime = ⟨day, b⟩ ∧ t.outcome = some .stop_loss
       | none, some p => t.exitTime = ⟨day, p⟩ ∧ t.outcome = some .take_profit
       | none, none =>
          t.exitTime = ⟨day, (rest.getLastD r0).time⟩ ∧ t.outcome = some .expire)) := by
  constructor
  · intro chain spx eod day esec sd slip comm forced sellLeg buyLeg r0 rest t hsl hlegs hjoin hlast h
    simp only [putGetSpreadData, hlegs, hjoin] at h
    simp only [putOutput, hsl] at h
    split at h
    · exact absurd h (by simp)
    · rw [if_neg (not_lt.mpr hlast)] at h
      split at h
      · exact absurd h (by simp)
      · rw [SpreadResult.trade.injEq] at h
        subst h
        rcases hbe : putBE? (putBreakEvenLevel sellLeg (putRowPrice sd.width slip r0))
            (r0 :: rest) with _ | b <;>
          rcases htp : putTP? sd.width slip
              (tpThreshold (putRowPrice sd.width slip r0) sd.takeProfitLevel)
              (r0 :: rest) with _ | p <;>
          simp only [hbe, htp, resolveExit]
        · exact ⟨trivial, trivial⟩
        · exact ⟨trivial, trivial⟩
        · exact ⟨trivial, trivial⟩
        · by_cases hbp : b < p
          · rw [if_pos hbp]
            exact ⟨fun _ => ⟨rfl, rfl⟩, fun hc => absurd hbp hc⟩
          · rw [if_neg hbp]
            exact ⟨fun hc => absurd hc hbp, fun _ => ⟨rfl, rfl⟩⟩
  · intro chain spx eod day esec sd slip comm forced sellLeg buyLeg r0 rest t hsl hlegs hjoin hlast h
    simp only [callGetSpreadData, hlegs, hjoin] at h
    simp only [callOutput, hsl] at h
    split at h
    · exact absurd h (by simp)
    · rw [if_neg (not_lt.mpr hlast)] at h
      split at h
      · exact absurd h (by simp)
      · rw [SpreadResult.trade.injEq] at h
        subst h
        rcases hbe : callBE? (callBreakEvenLevel sellLeg (callRowPrice sd.width slip r0))
            (r0 :: rest) with _ | b <;>
          rcases htp : callTP? sd.width slip
              (tpThreshold (callRowPrice sd.width slip r0) sd.takeProfitLevel)
              (r0 :: rest) with _ | p <;>
          simp only [hbe, htp, resolveExit]
        · exact ⟨trivial, trivial⟩
        · exact ⟨trivial, trivial⟩
        · exact ⟨trivial, trivial⟩
        · by_cases hbp : b < p
          · rw [if_pos hbp]
            exact ⟨fun _ => ⟨rfl, rfl⟩, fun hc => absurd hbp hc⟩
          · rw [if_neg hbp]
            exact ⟨fun hc => absurd hc hbp, fun _ => ⟨rfl, rfl⟩⟩

/-- C1 witness: a concrete `bep` trade with only a break-even minute
(78600): the theorem yields outcome `stop_loss` at that minute. -/
theorem C1_exit_resolution_amended_w :
    putGetSpreadData c1wChain 100 99 0 78600 c1sd (1/20) (3/2) (some (100, 95)) =
      .trade c1wTrade ∧
    c1wTrade.exitTime = ⟨0, 78600⟩ ∧ c1wTrade.outcome = some .stop_loss := by
  have h := C1_exit_resolution_amended.1 c1wChain 100 99 0 78600 c1sd (1/20) (3/2)
    (some (100, 95)) 100 95 c1wr0 c1wrest c1wTrade rfl rfl (by decide) (by decide)
    (by decide)
  have hbe : putBE? (putBreakEvenLevel 100 (putRowPrice c1sd.width (1/20) c1wr0))
      (c1wr0 :: c1wrest) = some 78600 := by decide
  have htp : putTP? c1sd.width (1/20)
      (tpThreshold (putRowPrice c1sd.width (1/20) c1wr0) c1sd.takeProfitLevel)
      (c1wr0 :: c1wrest) = none := by decide
  rw [hbe, htp] at h
  exact ⟨by decide, h⟩

/-- C8: when the last joined quote minute is strictly before 21:50:00, the
resolved exit is overridden: for a put spread, `session_eod_price >
short_strike` forces outcome `take_profit` at the last joined minute with
exit price `round(entry_price * take_profit_level, 1)`, otherwise outcome
`expire` at 22:00:00 with exit price `-width`; the call builder mirrors
this with the inequality reversed. -/
theorem C8_eod_override :
    (∀ (chain : ℚ → List QuoteRow) (spx eod : ℚ) (day esec : ℕ) (sd : StratData)
      (slip comm : ℚ) (forced : Option (ℚ × ℚ)) (sellLeg buyLeg : ℚ)
      (r0 : JoinedRow) (rest : List JoinedRow) (t : Trade),
      (match forced with
        | some pr => pr
        | none => putStrikesSel spx sd.offset sd.width) = (sellLeg, buyLeg) →
      joinedSeries chain esec sellLeg buyLeg = r0 :: rest →
      (rest.getLastD r0).time < 78600 →
      putGetSpreadData chain spx eod day esec sd slip comm forced = .trade t →
      ((eod > sellLeg →
          t.outcome = some .take_profit ∧
          t.exitTime = ⟨day, (rest.getLastD r0).time⟩ ∧
          t.exitPrice = tpThreshold t.entryPrice sd.takeProfitLevel) ∧
       (¬ eod > sellLeg →
          t.outcome = some .expire ∧ t.exitTime = ⟨day, 79200⟩ ∧
          t.exitPrice = -sd.width))) ∧
    (∀ (chain : ℚ → List QuoteRow) (spx eod : ℚ) (day esec : ℕ) (sd : StratData)
      (slip comm : ℚ) (forced : Option (ℚ × ℚ)) (sellLeg buyLeg : ℚ)
      (r0 : JoinedRow) (rest : List JoinedRow) (t : Trade),
      (match forced with
        | some pr => pr
        | none => callStrikesSel spx sd.offset sd.width) = (sellLeg, buyLeg) →
      joinedSeries chain esec sellLeg buyLeg = r0 :: rest →
      (rest.getLastD r0).time < 78600 →
      callGetSpreadData chain spx eod day esec sd slip comm forced = .trade t →
      ((eod < sellLeg →
          t.outcome = some .take_profit ∧
          t.exitTime = ⟨day, (rest.getLastD r0).time⟩ ∧
          t.exitPrice = tpThreshold t.entryPrice sd.takeProfitLevel) ∧
       (¬ eod < sellLeg →
          t.outcome = some .expire ∧ t.exitTime = ⟨day, 79200⟩ ∧
          t.exitPrice = -sd.width))) := by
  constructor
  · intro chain spx eod day esec sd slip comm forced sellLeg buyLeg r0 rest t hlegs hjoin hlast h
    simp only [putGetSpreadData, hlegs, hjoin] at h
    simp only [putOutput] at h
    split at h
    · exact absurd h (by simp)
    · rw [if_pos hlast] at h
      split at h
      · exact absurd h (by simp)
      · rw [SpreadResult.trade.injEq] at h
        subst h
        constructor
        · intro heod
          rw [if_pos heod]
          exact ⟨rfl, rfl, rfl⟩
        · intro heod
          rw [if_neg heod]
          exact ⟨rfl, rfl, rfl⟩
  · intro chain spx eod day esec sd slip comm forced sellLeg buyLeg r0 rest t hlegs hjoin hlast h
    simp only [callGetSpreadData, hlegs, hjoin] at h
    simp only [callOutput] at h
    split at h
    · exact absurd h (by simp)
    · rw [if_pos hlast] at h
      split at h
      · exact absurd h (by simp)
      · rw [SpreadResult.trade.injEq] at h
        subst h
        constructor
        · intro heod
          rw [if_pos heod]
          exact ⟨rfl, rfl, rfl⟩
        · intro heod
          rw [if_neg heod]
          exact ⟨rfl, rfl, rfl⟩

/-- C8 witness: a concrete put trade whose quotes stop at 16:40 with
`session_eod_price 200 > short_strike 100`: the override forces
`take_profit` at the last joined minute with the scaled exit price. -/
theorem C8_eod_override_w :
    putGetSpreadData c8wChain 100 200 0 60000 c1sd (1/20) (3/2) (some (100, 95)) =
      .trade c8wTrade ∧
    c8wTrade.outcome = some .take_profit ∧
    c8wTrade.exitTime = ⟨0, 60000⟩ ∧
    c8wTrade.exitPrice = tpThreshold c8wTrade.entryPrice c1sd.takeProfitLevel := by
  have h := C8_eod_override.1 c8wChain 100 200 0 60000 c1sd (1/20) (3/2)
    (some (100, 95)) 100 95 c8wr0 c8wrest c8wTrade rfl (by decide) (by decide)
    (by decide)
  exact ⟨by decide, h.1 (by norm_num)⟩

theorem maxLoss_le_maxProfit (d e : ℚ) (hd : 0 ≤ d) :
    -(round2 ((d + e) * 100)) ≤ maxProfitOf e := by
  unfold maxProfitOf
  have h1 : round2 (e * 100) ≤ round2 ((d + e) * 100) :=
    round2_mono (by nlinarith)
  have h2 : round2 (-e * 100) = - round2 (e * 100) := by
    rw [show (-e * 100 : ℚ) = -(e * 100) by ring, round2_neg]
  rw [h2]
  linarith

theorem clampPnl_bounds (p0 mL mP c : ℚ) (hc : 0 ≤ c) (hml : mL ≤ mP) :
    mL - c ≤ clampPnl p0 mL mP c ∧ clampPnl p0 mL mP c ≤ mP := by
  simp only [clampPnl]
  split_ifs <;> constructor <;> linarith

/-- C2 amended: for every trade returned by either builder (given a
non-negative commission, and short/long legs ordered as the side demands,
which holds for the built strikes whenever `width ≥ 0`), the recorded pnl
lies in `[max_loss - commission, max_profit]`: the lower clamp lands at
`max_loss - commission`, but a raw pnl between `max_profit - commission`
and `max_profit` is kept as is, so the claimed upper bound
`max_profit - commission` does not hold (and a clamped-low pnl lies below
`max_loss`, so `max_loss ≤ pnl` does not hold either). -/
theorem C2_pnl_bounds_amended :
    (∀ (chain : ℚ → List QuoteRow) (spx eod : ℚ) (day esec : ℕ) (sd : StratData)
      (slip comm : ℚ) (forced : Option (ℚ × ℚ)) (t : Trade),
      0 ≤ comm →
      putGetSpreadData chain spx eod day esec sd slip comm forced = .trade t →
      0 ≤ t.strikes.1 - t.strikes.2 →
      t.maxLoss - comm ≤ t.pnl ∧ t.pnl ≤ t.maxProfit) ∧
    (∀ (chain : ℚ → List QuoteRow) (spx eod : ℚ) (day esec : ℕ) (sd : StratData)
      (slip comm : ℚ) (forced : Option (ℚ × ℚ)) (t : Trade),
      0 ≤ comm →
      callGetSpreadData chain spx eod day esec sd slip comm forced = .trade t →
      0 ≤ t.strikes.2 - t.strikes.1 →
      t.maxLoss - comm ≤ t.pnl ∧ t.pnl ≤ t.maxProfit) := by
  constructor
  · intro chain spx eod day esec sd slip comm forced t hc h hstr
    simp only [putGetSpreadData] at h
    split at h
    · exact absurd h (by simp)
    · simp only [putOutput] at h
      split at h
      · exact absurd h (by simp)
      · split at h
        · exact absurd h (by simp)
        · rw [SpreadResult.trade.injEq] at h
          subst h
          exact clampPnl_bounds _ _ _ _ hc (maxLoss_le_maxProfit _ _ hstr)
  · intro chain spx eod day esec sd slip comm forced t hc h hstr
    simp only [callGetSpreadData] at h
    split at h
    · exact absurd h (by simp)
    · simp only [callOutput] at h
      split at h
      · exact absurd h (by simp)
      · split at h
        · exact absurd h (by simp)
        · rw [SpreadResult.trade.injEq] at h
          subst h
          exact clampPnl_bounds _ _ _ _ hc (maxLoss_le_maxProfit _ _ hstr)

/-- C2 witness: the concrete trade of the C1 witness scenario satisfies the
amended bounds `max_loss - commission ≤ pnl ≤ max_profit`. -/
theorem C2_pnl_bounds_amended_w :
    putGetSpreadData c1wChain 100 99 0 78600 c1sd (1/20) (3/2) (some (100, 95)) =
      .trade c1wTrade ∧
    c1wTrade.maxLoss - 3/2 ≤ c1wTrade.pnl ∧ c1wTrade.pnl ≤ c1wTrade.maxProfit := by
  have hrun : putGetSpreadData c1wChain 100 99 0 78600 c1sd (1/20) (3/2)
      (some (100, 95)) = .trade c1wTrade := by decide
  exact ⟨hrun, C2_pnl_bounds_amended.1 c1wChain 100 99 0 78600 c1sd (1/20) (3/2)
    (some (100, 95)) c1wTrade (by norm_num) hrun (by decide)⟩

theorem timestamp_lt_false_iff (a b : Timestamp) :
    Timestamp.lt a b = false ↔ Timestamp.le b a = true := by
  unfold Timestamp.lt Timestamp.le
  simp only [decide_eq_false_iff_not, decide_eq_true_eq]
  omega

/-- C9 amended: (a) under `time_box` the hedge entry time is set exactly
when the window-end time is at or before (`≤`, not strictly before) the
primary's exit time; (b) the hedge evaluation is not guarded by the
primary's commitment: when the primary call spread is rejected because its
strikes are reserved, the built hedge put spread is still committed
(subject only to the put-side strike reservation). -/
theorem C9_hedge_amended :
    (∀ (sd : StratData) (t : Trade) (day : ℕ),
      sd.hedge = .time_box →
      (hedgeEntry? sd t day = some ⟨day, sd.endWindow⟩ ↔
        Timestamp.le ⟨day, sd.endWindow⟩ t.exitTime = true)) ∧
    (∀ (env : Env) (day sec : ℕ) (cp ep : ℚ) (sd : StratData) (st : SimState)
      (tc th : Trade) (het : Timestamp),
      callGetSpreadData (env.chainC day) cp ep day sec sd simSlippage
        simCommission none = .trade tc →
      tc.strikes.1 ∈ st.usedCall ∨ tc.strikes.2 ∈ st.usedCall →
      hedgeEntry? sd tc day = some het →
      putGetSpreadData (env.chainP het.day) cp ep het.day het.sec sd
        simSlippage simCommission (some (tc.strikes.2, tc.strikes.1)) = .trade th →
      openCall env day sec cp ep sd st = some (commitSide st .put_spread th)) := by
  constructor
  · intro sd t day hh
    unfold hedgeEntry?
    rw [hh]
    rcases hlt : Timestamp.lt t.exitTime ⟨day, sd.endWindow⟩ with _ | _
    · rw [if_neg (by simp [hlt])]
      simp only [Option.some.injEq]
      rw [(timestamp_lt_false_iff _ _).mp hlt]
      simp
    · rw [if_pos (by simp [hlt])]
      constructor
      · intro hc
        exact absurd hc (by simp)
      · intro hc
        have := (timestamp_lt_false_iff t.exitTime ⟨day, sd.endWindow⟩).mpr hc
        rw [hlt] at this
        exact absurd this (by simp)
  · intro env day sec cp ep sd st tc th het h1 huse h2 h3
    have hst1 : commitSide st .call_spread tc = st := by
      unfold commitSide
      rw [if_pos huse]
    simp only [openCall, h1, hst1, h2, h3]

/-- C9 witness: with strikes 100 and 105 reserved on the call side, the
primary call spread of the C9 scenario is rejected, yet its `box` hedge put
is still committed. -/
theorem C9_hedge_amended_w :
    (c9primary.strikes.1 ∈ c9wState.usedCall ∨
      c9primary.strikes.2 ∈ c9wState.usedCall) ∧
    openCall c9env 0 55860 100 100 c9sd c9wState =
      some (commitSide c9wState .put_spread c9wHedge) := by
  have h1 : callGetSpreadData (c9env.chainC 0) 100 100 0 55860 c9sd simSlippage
      simCommission none = .trade c9primary := by decide
  have h2 : hedgeEntry? c9sd c9primary 0 = some c9wHet := by decide
  have h3 : putGetSpreadData (c9env.chainP c9wHet.day) 100 100 c9wHet.day
      c9wHet.sec c9sd simSlippage simCommission
      (some (c9primary.strikes.2, c9primary.strikes.1)) = .trade c9wHedge := by
    decide
  exact ⟨by decide, C9_hedge_amended.2 c9env 0 55860 100 100 c9sd c9wState
    c9primary c9wHedge c9wHet h1 (by decide) h2 h3⟩

/-! ## Generic fold and set lemmas -/

theorem foldl_bind_none {α β : Type} (f : α → β → Option β) (l : List α) :
    l.foldl (fun acc a => acc.bind (f a)) none = none := by
  induction l with
  | nil => rfl
  | cons a l ih => simpa using ih

theorem foldl_bind_invariant {α β : Type} (P : β → Prop) (f : α → β → Option β)
    (l : List α) (hf : ∀ a ∈ l, ∀ st st', f a st = some st' → P st → P st') :
    ∀ (st st' : β),
      l.foldl (fun acc a => acc.bind (f a)) (some st) = some st' → P st → P st' := by
  induction l with
  | nil =>
    intro st st' h hp
    simp only [List.foldl_nil, Option.some.injEq] at h
    exact h ▸ hp
  | cons a l ih =>
    intro st st' h hp
    rw [List.foldl_cons] at h
    rcases hfa : f a st with _ | st1
    · rw [show (some st).bind (f a) = none by simp [hfa]] at h
      rw [foldl_bind_none] at h
      exact absurd h (by simp)
    · rw [show (some st).bind (f a) = some st1 by simp [hfa]] at h
      exact ih (fun x hx => hf x (List.mem_cons_of_mem a hx)) st1 st' h
        (hf a (List.mem_cons_self a l) st st1 hfa hp)

theorem foldl_bind_last {α β : Type} (Q : β → Prop) (f : α → β → Option β)
    (hf : ∀ a st st', f a st = some st' → Q st') :
    ∀ (l : List α) (st st' : β), l ≠ [] →
      l.foldl (fun acc a => acc.bind (f a)) (some st) = some st' → Q st' := by
  intro l
  induction l with
  | nil => intro st st' h; exact absurd rfl h
  | cons a l ih =>
    intro st st' _ h
    rw [List.foldl_cons] at h
    rcases hl : l with _ | ⟨b, l2⟩
    · subst hl
      simp only [List.foldl_nil, Option.some_bind] at h
      exact hf a st st' h
    · subst hl
      rcases hfa : f a st with _ | st1
      · rw [show (some st).bind (f a) = none by simp [hfa]] at h
        rw [foldl_bind_none] at h
        exact absurd h (by simp)
      · rw [show (some st).bind (f a) = some st1 by simp [hfa]] at h
        exact ih st1 st' (by simp) h

theorem mem_addStrike {l : List ℚ} {s x : ℚ} : x ∈ addStrike l s ↔ x ∈ l ∨ x = s := by
  unfold addStrike
  split_ifs with h
  · constructor
    · exact Or.inl
    · rintro (hx | rfl)
      · exact hx
      · exact h
  · simp [List.mem_append]

/-! ## Close-phase lemmas -/

theorem closeTrade_active {now : Timestamp} {t : Trade}
    (h : (closeTrade now t).currentStatus = .active) :
    closeTrade now t = t ∧ t.currentStatus = .active ∧
    Timestamp.le t.exitTime now = false := by
  by_cases hc : isClosing now t = true
  · unfold closeTrade at h
    rw [if_pos hc] at h
    simp at h
  · have he : closeTrade now t = t := by
      unfold closeTrade
      rw [if_neg hc]
    rw [he] at h
    refine ⟨he, h, ?_⟩
    unfold isClosing at hc
    rcases hle : Timestamp.le t.exitTime now with _ | _
    · rfl
    · exact absurd (by simp [hle, h]) hc

theorem closePhase_no_due_active (st : SimState) (now : Timestamp) :
    ∀ t' ∈ (closePhase st now).trades, t'.currentStatus = .active →
      Timestamp.le t'.exitTime now = false := by
  intro t' ht' hact
  simp only [closePhase, List.mem_map] at ht'
  obtain ⟨t, _, rfl⟩ := ht'
  obtain ⟨heq, _, hle⟩ := closeTrade_active hact
  rw [heq]
  exact hle

theorem closePhase_exitBounded {day : ℕ} {st : SimState} {now : Timestamp}
    (h : ExitBounded day st.trades) : ExitBounded day (closePhase st now).trades := by
  intro t' ht' hact
  simp only [closePhase, List.mem_map] at ht'
  obtain ⟨t, ht, rfl⟩ := ht'
  obtain ⟨heq, hactt, _⟩ := closeTrade_active hact
  rw [heq]
  exact h t ht hactt

theorem closePhase_allClosed {st : SimState} {now : Timestamp}
    (h : AllClosed st.trades) : AllClosed (closePhase st now).trades := by
  intro t' ht'
  simp only [closePhase, List.mem_map] at ht'
  obtain ⟨t, ht, rfl⟩ := ht'
  unfold closeTrade
  split_ifs
  · rfl
  · exact h t ht

theorem noShared_rel_symm :
    Symmetric (fun a b : Trade => a.currentStatus = .active →
      b.currentStatus = .active → a.spreadType = b.spreadType → strikesDisjoint a b) := by
  intro a b hab hb ha hty
  obtain ⟨h1, h2, h3, h4⟩ := hab ha hb hty.symm
  exact ⟨h1.symm, h3.symm, h2.symm, h4.symm⟩

theorem closePhase_used_keep {st : SimState} {now : Timestamp} {t : Trade} {s : ℚ}
    (hns : NoSharedStrikes st.trades) (ht : t ∈ st.trades)
    (hactt : t.currentStatus = .active) (hle : Timestamp.le t.exitTime now = false)
    (hstrike : s = t.strikes.1 ∨ s = t.strikes.2) :
    ∀ c ∈ st.trades.filter (isClosing now),
      (c.spreadType == t.spreadType && (c.strikes.1 == s || c.strikes.2 == s)) = false := by
  intro c hc
  rw [List.mem_filter] at hc
  obtain ⟨hcm, hcc⟩ := hc
  unfold isClosing at hcc
  rw [Bool.and_eq_true] at hcc
  obtain ⟨hcle, hcact⟩ := hcc
  have hcact' : c.currentStatus = .active := by simpa using hcact
  have hcnet : c ≠ t := by
    intro hct
    rw [hct, hle] at hcle
    exact absurd hcle (by simp)
  by_cases hty : c.spreadType = t.spreadType
  · unfold NoSharedStrikes at hns
    have hdis := List.Pairwise.forall noShared_rel_symm hns hcm ht hcnet hcact'
      hactt hty
    obtain ⟨d1, d2, d3, d4⟩ := hdis
    rcases hstrike with rfl | rfl
    · simp [d1, d3]
    · simp [d2, d4]
  · simp [hty]

theorem closePhase_reserved {st : SimState} {now : Timestamp}
    (hres : StrikesReserved st) (hns : NoSharedStrikes st.trades) :
    StrikesReserved (closePhase st now) := by
  intro t' ht' hact
  simp only [closePhase, List.mem_map] at ht'
  obtain ⟨t, ht, rfl⟩ := ht'
  obtain ⟨heq, hactt, hle⟩ := closeTrade_active hact
  rw [heq]
  obtain ⟨hm1, hm2⟩ := hres t ht hactt
  have hkeep1 := closePhase_used_keep hns ht hactt hle (Or.inl rfl)
  have hkeep2 := closePhase_used_keep hns ht hactt hle (Or.inr rfl)
  rcases hty : t.spreadType with _ | _ <;>
    rw [hty] at hm1 hm2 hkeep1 hkeep2 <;>
    simp only [sideUsed] at hm1 hm2 <;>
    constructor <;>
    · simp only [closePhase, sideUsed, List.mem_filter, Bool.not_eq_true',
        List.any_eq_false]
      refine ⟨by assumption, ?_⟩
      intro c hc
      have hcf : c ∈ List.filter (isClosing now) st.trades :=
        List.mem_filter.mpr ⟨hc.1, hc.2⟩
      first
      | (rw [hkeep1 c hcf]; simp)
      | (rw [hkeep2 c hcf]; simp)

theorem closePhase_releases (st : SimState) (now : Timestamp) :
    ∀ t ∈ st.trades, Timestamp.le t.exitTime now = true → t.currentStatus = .active →
      (t.spreadType = .put_spread →
        t.strikes.1 ∉ (closePhase st now).usedPut ∧
        t.strikes.2 ∉ (closePhase st now).usedPut) ∧
      (t.spreadType = .call_spread →
        t.strikes.1 ∉ (closePhase st now).usedCall ∧
        t.strikes.2 ∉ (closePhase st now).usedCall) := by
  intro t ht hle hact
  have htc : t ∈ st.trades.filter (isClosing now) := by
    rw [List.mem_filter]
    exact ⟨ht, by simp [isClosing, hle, hact]⟩
  constructor <;> intro hty <;> constructor <;>
  · intro hmem
    simp only [closePhase, List.mem_filter, Bool.not_eq_true',
      List.any_eq_false] at hmem
    obtain ⟨_, hnot⟩ := hmem
    have := hnot t (List.mem_filter.mp htc)
    simp [hty] at this

theorem allClosed_noShared {l : List Trade} (h : AllClosed l) :
    NoSharedStrikes l := by
  induction l with
  | nil => exact List.Pairwise.nil
  | cons a l ih =>
    refine List.Pairwise.cons ?_ (ih fun t ht => h t (List.mem_cons_of_mem a ht))
    intro b _ hact _ _
    exfalso
    rw [h a (List.mem_cons_self a l)] at hact
    exact absurd hact (by decide)

theorem allClosed_resInv {day : ℕ} {st : SimState} (h : AllClosed st.trades) :
    ResInv day st := by
  refine ⟨?_, allClosed_noShared h, ?_⟩
  · intro t ht hact
    rw [h t ht] at hact
    exact absurd hact (by decide)
  · intro t ht hact
    rw [h t ht] at hact
    exact absurd hact (by decide)

theorem closePhase_noShared {st : SimState} {now : Timestamp}
    (h : NoSharedStrikes st.trades) : NoSharedStrikes (closePhase st now).trades := by
  unfold NoSharedStrikes at h ⊢
  simp only [closePhase]
  rw [List.pairwise_map]
  refine h.imp ?_
  intro a b hab ha hb hty
  obtain ⟨hea, haa, _⟩ := closeTrade_active ha
  obtain ⟨heb, hbb, _⟩ := closeTrade_active hb
  rw [hea, heb]
  rw [hea, heb] at hty
  exact hab haa hbb hty

/-! ## Builder structural lemmas -/

theorem find?_time_mem {p : JoinedRow → Bool} {rows : List JoinedRow} {n : ℕ}
    (h : ((rows.find? p).map (fun r => r.time)) = some n) :
    ∃ r ∈ rows, r.time = n := by
  rcases hf : rows.find? p with _ | r <;> rw [hf] at h
  · exact absurd h (by simp)
  · simp only [Option.map_some', Option.some.injEq] at h
    exact ⟨r, List.mem_of_find?_eq_some hf, h⟩

theorem joinRows_time (s b : List QuoteRow) :
    ∀ r ∈ joinRows s b, ∃ q ∈ s, r.time = q.time := by
  intro r hr
  unfold joinRows at hr
  simp only [List.mem_filterMap] at hr
  obtain ⟨q, hq, hmap⟩ := hr
  rcases hfind : b.find? (fun x => x.time == q.time) with _ | qb <;>
    rw [hfind] at hmap
  · exact absurd hmap (by simp)
  · simp only [Option.map_some', Option.some.injEq] at hmap
    exact ⟨q, hq, by rw [← hmap]⟩

theorem joinedSeries_time_bound {chain : ℚ → List QuoteRow} {esec : ℕ}
    {sl bl : ℚ} (hbound : ∀ k, ∀ r ∈ chain k, r.time ≤ 79200) :
    ∀ r ∈ joinedSeries chain esec sl bl, r.time ≤ 79200 := by
  intro r hr
  obtain ⟨q, hq, hqt⟩ := joinRows_time _ _ r hr
  rw [hqt]
  exact hbound sl q ((List.mem_filter.mp hq).1)

theorem resolveExit_fst (slt : StopLossType) (be? tp? : Option ℕ) (lastT : ℕ) :
    (resolveExit slt be? tp? lastT).1 = lastT ∨
    be? = some (resolveExit slt be? tp? lastT).1 ∨
    tp? = some (resolveExit slt be? tp? lastT).1 := by
  unfold resolveExit
  rcases slt <;> rcases be? with _ | b <;> rcases tp? with _ | p <;> simp
  · split_ifs <;> simp

theorem putGetSpreadData_fields
    {chain : ℚ → List QuoteRow} {spx eod : ℚ} {day esec : ℕ} {sd : StratData}
    {slip comm : ℚ} {forced : Option (ℚ × ℚ)} {t : Trade}
    (h : putGetSpreadData chain spx eod day esec sd slip comm forced = .trade t) :
    t.spreadType = .put_spread ∧ t.currentStatus = .active ∧
    t.entryTime = ⟨day, esec⟩ ∧ t.exitTime.day = day ∧
    (∀ bt, t.breakEvenTime = some bt → bt.day = day) := by
  simp only [putGetSpreadData] at h
  split at h
  · exact absurd h (by simp)
  · simp only [putOutput] at h
    split at h
    · exact absurd h (by simp)
    · split at h
      · exact absurd h (by simp)
      · rw [SpreadResult.trade.injEq] at h
        subst h
        refine ⟨rfl, rfl, rfl, rfl, ?_⟩
        intro bt hbt
        simp only [Option.map_eq_some'] at hbt
        obtain ⟨n, _, hbt2⟩ := hbt
        rw [← hbt2]

theorem putOutput_exit_le {day esec : ℕ} {sd : StratData} {slip comm : ℚ}
    {sl bl eod : ℚ} {r0 : JoinedRow} {rest : List JoinedRow} {t : Trade}
    (hrows : ∀ r ∈ (r0 :: rest), r.time ≤ 79200)
    (h : putOutput day esec sd slip comm sl bl eod r0 rest = .trade t) :
    t.exitTime.sec ≤ 79200 := by
  have hlast : (rest.getLastD r0).time ≤ 79200 :=
    hrows _ (List.getLastD_mem_cons rest r0)
  have hres1 : (resolveExit sd.stopLossType
      (putBE? (putBreakEvenLevel sl (putRowPrice sd.width slip r0)) (r0 :: rest))
      (putTP? sd.width slip
        (tpThreshold (putRowPrice sd.width slip r0) sd.takeProfitLevel) (r0 :: rest))
      ((rest.getLastD r0).time)).1 ≤ 79200 := by
    rcases resolveExit_fst sd.stopLossType
        (putBE? (putBreakEvenLevel sl (putRowPrice sd.width slip r0)) (r0 :: rest))
        (putTP? sd.width slip
          (tpThreshold (putRowPrice sd.width slip r0) sd.takeProfitLevel) (r0 :: rest))
        ((rest.getLastD r0).time) with h1 | h1 | h1
    · rw [h1]; exact hlast
    · obtain ⟨r, hr, hrt⟩ := find?_time_mem h1
      rw [← hrt]
      exact hrows r hr
    · obtain ⟨r, hr, hrt⟩ := find?_time_mem h1
      rw [← hrt]
      exact hrows r hr
  simp only [putOutput] at h
  split at h
  · exact absurd h (by simp)
  · split at h
    · exact absurd h (by simp)
    · rw [SpreadResult.trade.injEq] at h
      subst h
      dsimp only
      split_ifs
      · exact hlast
      · exact le_refl _
      · exact hres1

theorem putGetSpreadData_exit_le
    {chain : ℚ → List QuoteRow} {spx eod : ℚ} {day esec : ℕ} {sd : StratData}
    {slip comm : ℚ} {forced : Option (ℚ × ℚ)} {t : Trade}
    (hbound : ∀ k, ∀ r ∈ chain k, r.time ≤ 79200)
    (h : putGetSpreadData chain spx eod day esec sd slip comm forced = .trade t) :
    t.exitTime.sec ≤ 79200 := by
  simp only [putGetSpreadData] at h
  split at h
  · exact absurd h (by simp)
  · rename_i r0 rest heq
    exact putOutput_exit_le
      (fun r hr => joinedSeries_time_bound hbound r (heq ▸ hr)) h

theorem callOutput_exit_le {day esec : ℕ} {sd : StratData} {slip comm : ℚ}
    {sl bl eod : ℚ} {r0 : JoinedRow} {rest : List JoinedRow} {t : Trade}
    (hrows : ∀ r ∈ (r0 :: rest), r.time ≤ 79200)
    (h : callOutput day esec sd slip comm sl bl eod r0 rest = .trade t) :
    t.exitTime.sec ≤ 79200 := by
  have hlast : (rest.getLastD r0).time ≤ 79200 :=
    hrows _ (List.getLastD_mem_cons rest r0)
  have hres1 : (resolveExit sd.stopLossType
      (callBE? (callBreakEvenLevel sl (callRowPrice sd.width slip r0)) (r0 :: rest))
      (callTP? sd.width slip
        (tpThreshold (callRowPrice sd.width slip r0) sd.takeProfitLevel) (r0 :: rest))
      ((rest.getLastD r0).time)).1 ≤ 79200 := by
    rcases resolveExit_fst sd.stopLossType
        (callBE? (callBreakEvenLevel sl (callRowPrice sd.width slip r0)) (r0 :: rest))
        (callTP? sd.width slip
          (tpThreshold (callRowPrice sd.width slip r0) sd.takeProfitLevel) (r0 :: rest))
        ((rest.getLastD r0).time) with h1 | h1 | h1
    · rw [h1]; exact hlast
    · obtain ⟨r, hr, hrt⟩ := find?_time_mem h1
      rw [← hrt]
      exact hrows r hr
    · obtain ⟨r, hr, hrt⟩ := find?_time_mem h1
      rw [← hrt]
      exact hrows r hr
  simp only [callOutput] at h
  split at h
  · exact absurd h (by simp)
  · split at h
    · exact absurd h (by simp)
    · rw [SpreadResult.trade.injEq] at h
      subst h
      dsimp only
      split_ifs
      · exact hlast
      · exact le_refl _
      · exact hres1

theorem callGetSpreadData_exit_le
    {chain : ℚ → List QuoteRow} {spx eod : ℚ} {day esec : ℕ} {sd : StratData}
    {slip comm : ℚ} {forced : Option (ℚ × ℚ)} {t : Trade}
    (hbound : ∀ k, ∀ r ∈ chain k, r.time ≤ 79200)
    (h : callGetSpreadData chain spx eod day esec sd slip comm forced = .trade t) :
    t.exitTime.sec ≤ 79200 := by
  simp only [callGetSpreadData] at h
  split at h
  · exact absurd h (by simp)
  · rename_i r0 rest heq
    exact callOutput_exit_le
      (fun r hr => joinedSeries_time_bound hbound r (heq ▸ hr)) h

theorem commitSide_resInv {day : ℕ} {st : SimState} {side : SpreadType} {t : Trade}
    (hty : t.spreadType = side) (hact : t.currentStatus = .active)
    (hday : t.exitTime.day = day) (hsec : t.exitTime.sec ≤ 79200)
    (hinv : ResInv day st) : ResInv day (commitSide st side t) := by
  obtain ⟨hres, hns, hexit⟩ := hinv
  rcases side with _ | _
  · simp only [commitSide]
    split_ifs with hmem
    · exact ⟨hres, hns, hexit⟩
    · push_neg at hmem
      refine ⟨?_, ?_, ?_⟩
      · intro t' ht' hact'
        rcases List.mem_append.mp ht' with hold | hnew
        · obtain ⟨h1, h2⟩ := hres t' hold hact'
          rcases hside : t'.spreadType with _ | _ <;> rw [hside] at h1 h2 <;>
            simp only [sideUsed] at h1 h2 ⊢
          · exact ⟨by rw [mem_addStrike, mem_addStrike]; exact Or.inl (Or.inl h1),
              by rw [mem_addStrike, mem_addStrike]; exact Or.inl (Or.inl h2)⟩
          · exact ⟨h1, h2⟩
        · rw [List.mem_singleton] at hnew
          subst hnew
          rw [hty]
          simp only [sideUsed]
          exact ⟨by rw [mem_addStrike, mem_addStrike]; exact Or.inl (Or.inr rfl),
            by rw [mem_addStrike]; exact Or.inr rfl⟩
      · unfold NoSharedStrikes
        rw [List.pairwise_append]
        refine ⟨hns, List.pairwise_singleton _ _, ?_⟩
        intro a ha b hb
        rw [List.mem_singleton] at hb
        subst hb
        intro haact _ htyeq
        have hmema := hres a ha haact
        rw [htyeq, hty] at hmema
        simp only [sideUsed] at hmema
        obtain ⟨ha1, ha2⟩ := hmema
        exact ⟨fun he => hmem.1 (he ▸ ha1), fun he => hmem.2 (he ▸ ha1),
          fun he => hmem.1 (he ▸ ha2), fun he => hmem.2 (he ▸ ha2)⟩
      · intro t' ht' hact'
        rcases List.mem_append.mp ht' with hold | hnew
        · exact hexit t' hold hact'
        · rw [List.mem_singleton] at hnew
          subst hnew
          exact ⟨hday, hsec⟩
  · simp only [commitSide]
    split_ifs with hmem
    · exact ⟨hres, hns, hexit⟩
    · push_neg at hmem
      refine ⟨?_, ?_, ?_⟩
      · intro t' ht' hact'
        rcases List.mem_append.mp ht' with hold | hnew
        · obtain ⟨h1, h2⟩ := hres t' hold hact'
          rcases hside : t'.spreadType with _ | _ <;> rw [hside] at h1 h2 <;>
            simp only [sideUsed] at h1 h2 ⊢
          · exact ⟨h1, h2⟩
          · exact ⟨by rw [mem_addStrike, mem_addStrike]; exact Or.inl (Or.inl h1),
              by rw [mem_addStrike, mem_addStrike]; exact Or.inl (Or.inl h2)⟩
        · rw [List.mem_singleton] at hnew
          subst hnew
          rw [hty]
          simp only [sideUsed]
          exact ⟨by rw [mem_addStrike, mem_addStrike]; exact Or.inl (Or.inr rfl),
            by rw [mem_addStrike]; exact Or.inr rfl⟩
      · unfold NoSharedStrikes
        rw [List.pairwise_append]
        refine ⟨hns, List.pairwise_singleton _ _, ?_⟩
        intro a ha b hb
        rw [List.mem_singleton] at hb
        subst hb
        intro haact _ htyeq
        have hmema := hres a ha haact
        rw [htyeq, hty] at hmema
        simp only [sideUsed] at hmema
        obtain ⟨ha1, ha2⟩ := hmema
        exact ⟨fun he => hmem.1 (he ▸ ha1), fun he => hmem.2 (he ▸ ha1),
          fun he => hmem.1 (he ▸ ha2), fun he => hmem.2 (he ▸ ha2)⟩
      · intro t' ht' hact'
        rcases List.mem_append.mp ht' with hold | hnew
        · exact hexit t' hold hact'
        · rw [List.mem_singleton] at hnew
          subst hnew
          exact ⟨hday, hsec⟩

theorem hedgeEntry?_day {sd : StratData} {t : Trade} {day : ℕ} {het : Timestamp}
    (hbt : ∀ bt, t.breakEvenTime = some bt → bt.day = day)
    (h : hedgeEntry? sd t day = some het) : het.day = day := by
  unfold hedgeEntry? at h
  split at h
  · exact hbt het h
  · split_ifs at h
    all_goals simp only [Option.some.injEq] at h
    all_goals rw [← h]
  · exact absurd h (by simp)

theorem callGetSpreadData_fields
    {chain : ℚ → List QuoteRow} {spx eod : ℚ} {day esec : ℕ} {sd : StratData}
    {slip comm : ℚ} {forced : Option (ℚ × ℚ)} {t : Trade}
    (h : callGetSpreadData chain spx eod day esec sd slip comm forced = .trade t) :
    t.spreadType = .call_spread ∧ t.currentStatus = .active ∧
    t.entryTime = ⟨day, esec⟩ ∧ t.exitTime.day = day ∧
    (∀ bt, t.breakEvenTime = some bt → bt.day = day) := by
  simp only [callGetSpreadData] at h
  split at h
  · exact absurd h (by simp)
  · simp only [callOutput] at h
    split at h
    · exact absurd h (by simp)
    · split at h
      · exact absurd h (by simp)
      · rw [SpreadResult.trade.injEq] at h
        subst h
        refine ⟨rfl, rfl, rfl, rfl, ?_⟩
        intro bt hbt
        simp only [Option.map_eq_some'] at hbt
        obtain ⟨n, _, hbt2⟩ := hbt
        rw [← hbt2]

/-! ## Reservation-invariant preservation through the simulator -/

theorem envE_wf : EnvWF envE := by
  intro day k
  exact ⟨fun r hr => absurd hr (List.not_mem_nil r),
    fun r hr => absurd hr (List.not_mem_nil r)⟩

theorem openCall_resInv {env : Env} {day sec : ℕ} {cp ep : ℚ} {sd : StratData}
    {st st' : SimState} (hwf : EnvWF env)
    (h : openCall env day sec cp ep sd st = some st')
    (hinv : ResInv day st) : ResInv day st' := by
  simp only [openCall] at h
  split at h
  · exact absurd h (by simp)
  · simp only [Option.some.injEq] at h
    exact h ▸ hinv
  · rename_i tc heqc
    obtain ⟨hty, hact, _, hday, hbt⟩ := callGetSpreadData_fields heqc
    have hsec : tc.exitTime.sec ≤ 79200 :=
      callGetSpreadData_exit_le (fun k => (hwf day k).2) heqc
    have hinv1 : ResInv day (commitSide st .call_spread tc) :=
      commitSide_resInv hty hact hday hsec hinv
    split at h
    · simp only [Option.some.injEq] at h
      exact h ▸ hinv1
    · rename_i het hhet
      have hhd : het.day = day := hedgeEntry?_day hbt hhet
      split at h
      · exact absurd h (by simp)
      · simp only [Option.some.injEq] at h
        exact h ▸ hinv1
      · rename_i th heqh
        obtain ⟨htyh, hacth, _, hdayh, _⟩ := putGetSpreadData_fields heqh
        have hsech : th.exitTime.sec ≤ 79200 :=
          putGetSpreadData_exit_le (fun k => (hwf het.day k).1) heqh
        simp only [Option.some.injEq] at h
        exact h ▸ commitSide_resInv htyh hacth (hhd ▸ hdayh) hsech hinv1

theorem openPut_resInv {env : Env} {day sec : ℕ} {cp ep : ℚ} {sd : StratData}
    {st st' : SimState} (hwf : EnvWF env)
    (h : openPut env day sec cp ep sd st = some st')
    (hinv : ResInv day st) : ResInv day st' := by
  simp only [openPut] at h
  split at h
  · exact absurd h (by simp)
  · simp only [Option.some.injEq] at h
    exact h ▸ hinv
  · rename_i tp heqp
    obtain ⟨hty, hact, _, hday, hbt⟩ := putGetSpreadData_fields heqp
    have hsec : tp.exitTime.sec ≤ 79200 :=
      putGetSpreadData_exit_le (fun k => (hwf day k).1) heqp
    have hinv1 : ResInv day (commitSide st .put_spread tp) :=
      commitSide_resInv hty hact hday hsec hinv
    split at h
    · simp only [Option.some.injEq] at h
      exact h ▸ hinv1
    · rename_i het hhet
      have hhd : het.day = day := hedgeEntry?_day hbt hhet
      split at h
      · exact absurd h (by simp)
      · simp only [Option.some.injEq] at h
        exact h ▸ hinv1
      · rename_i th heqh
        obtain ⟨htyh, hacth, _, hdayh, _⟩ := callGetSpreadData_fields heqh
        have hsech : th.exitTime.sec ≤ 79200 :=
          callGetSpreadData_exit_le (fun k => (hwf het.day k).2) heqh
        simp only [Option.some.injEq] at h
        exact h ▸ commitSide_resInv htyh hacth (hhd ▸ hdayh) hsech hinv1

theorem openPhase_resInv {env : Env} {day sec : ℕ} {cp ep : ℚ} {nm : SpreadType}
    {sd : StratData} {st st' : SimState} (hwf : EnvWF env)
    (h : openPhase env day sec cp ep nm sd st = some st')
    (hinv : ResInv day st) : ResInv day st' := by
  simp only [openPhase] at h
  split_ifs at h
  · rcases nm with _ | _
    · exact openPut_resInv hwf h hinv
    · exact openCall_resInv hwf h hinv
  · simp only [Option.some.injEq] at h
    exact h ▸ hinv
  · simp only [Option.some.injEq] at h
    exact h ▸ hinv

theorem closePhase_resInv {day : ℕ} {st : SimState} {now : Timestamp}
    (hinv : ResInv day st) : ResInv day (closePhase st now) :=
  ⟨closePhase_reserved hinv.1 hinv.2.1, closePhase_noShared hinv.2.1,
    closePhase_exitBounded hinv.2.2⟩

theorem stratStep_resInv {env : Env} {day sec : ℕ} {cp? ep? : Option ℚ}
    {nm : SpreadType} {sd : StratData} {st st' : SimState} (hwf : EnvWF env)
    (h : stratStep env day sec cp? ep? nm sd st = some st')
    (hinv : ResInv day st) : ResInv day st' := by
  simp only [stratStep, Option.map_eq_some'] at h
  obtain ⟨st1, h1, h2⟩ := h
  subst h2
  refine closePhase_resInv ?_
  split at h1
  · split_ifs at h1
    · simp only [Option.some.injEq] at h1
      exact h1 ▸ hinv
    · exact openPhase_resInv hwf h1 hinv
  all_goals simp only [Option.some.injEq] at h1
  all_goals exact h1 ▸ hinv

theorem processMinute_resInv {env : Env} {strats : List (SpreadType × StratData)}
    {day sec : ℕ} {st st' : SimState} (hwf : EnvWF env)
    (h : processMinute env strats day sec st = some st')
    (hinv : ResInv day st) : ResInv day st' := by
  simp only [processMinute] at h
  exact foldl_bind_invariant (ResInv day) _ strats
    (fun p _ s s' hs => stratStep_resInv hwf hs) st st' h hinv

theorem runDayUpTo_resInv {env : Env} {strats : List (SpreadType × StratData)}
    {day n : ℕ} {st st' : SimState} (hwf : EnvWF env)
    (h : runDayUpTo env strats day n st = some st')
    (hac : AllClosed st.trades) : ResInv day st' := by
  simp only [runDayUpTo] at h
  exact foldl_bind_invariant (ResInv day) _ _
    (fun sec _ s s' hs => processMinute_resInv hwf hs) _ st' h
    (allClosed_resInv hac)

/-! ## End-of-day closure -/

theorem noDue_exitBounded_allClosed {day : ℕ} {l : List Trade}
    (hnd : ∀ t ∈ l, t.currentStatus = .active →
      Timestamp.le t.exitTime ⟨day, 79200⟩ = false)
    (heb : ExitBounded day l) : AllClosed l := by
  intro t ht
  rcases hst : t.currentStatus with _ | _
  · exfalso
    have hf := hnd t ht hst
    obtain ⟨hd, hs⟩ := heb t ht hst
    unfold Timestamp.le at hf
    rw [decide_eq_false_iff_not] at hf
    exact hf (Or.inr ⟨hd, hs⟩)
  · rfl

theorem stratStep_closes {env : Env} {day sec : ℕ} {cp? ep? : Option ℚ}
    {nm : SpreadType} {sd : StratData} {st st' : SimState}
    (h : stratStep env day sec cp? ep? nm sd st = some st') :
    ∀ t ∈ st'.trades, t.currentStatus = .active →
      Timestamp.le t.exitTime ⟨day, sec⟩ = false := by
  simp only [stratStep, Option.map_eq_some'] at h
  obtain ⟨st1, _, h2⟩ := h
  subst h2
  exact closePhase_no_due_active st1 ⟨day, sec⟩

theorem processMinute_allClosed {env : Env} {strats : List (SpreadType × StratData)}
    {day : ℕ} {st st' : SimState} (hwf : EnvWF env) (hne : strats ≠ [])
    (h : processMinute env strats day 79200 st = some st')
    (hinv : ResInv day st) : AllClosed st'.trades := by
  have hinv' : ResInv day st' := processMinute_resInv hwf h hinv
  simp only [processMinute] at h
  have hnd := foldl_bind_last
    (fun s : SimState => ∀ t ∈ s.trades, t.currentStatus = .active →
      Timestamp.le t.exitTime ⟨day, 79200⟩ = false)
    _ (fun p s s' hs => stratStep_closes hs) strats st st' hne h
  exact noDue_exitBounded_allClosed hnd hinv'.2.2

theorem processDay_allClosed {env : Env} {strats : List (SpreadType × StratData)}
    {day : ℕ} {st st' : SimState} (hwf : EnvWF env)
    (h : processDay env strats day st = some st')
    (hac : AllClosed st.trades) : AllClosed st'.trades := by
  rcases hstrats : strats with _ | ⟨p, ps⟩
  · subst hstrats
    simp only [processDay, runDayUpTo] at h
    refine foldl_bind_invariant (fun s => AllClosed s.trades) _ _ ?_ _ st' h hac
    intro sec _ s s' hs hp
    simp only [processMinute, List.foldl_nil, Option.some.injEq] at hs
    exact hs ▸ hp
  · subst hstrats
    have hsplit : tradingMinutes.take 391 = tradingMinutes.take 390 ++ [79200] := by
      set_option maxRecDepth 4000 in decide
    simp only [processDay, runDayUpTo, hsplit, List.foldl_append, List.foldl_cons,
      List.foldl_nil] at h
    rw [Option.bind_eq_some] at h
    obtain ⟨stm, hmid, hlast⟩ := h
    have hinvm : ResInv day stm := foldl_bind_invariant (ResInv day) _ _
      (fun sec _ s s' hs => processMinute_resInv hwf hs) _ stm hmid
      (allClosed_resInv hac)
    exact processMinute_allClosed hwf (by simp) hlast hinvm

theorem runSim_allClosed {env : Env} {strats : List (SpreadType × StratData)}
    {days : List ℕ} {st st' : SimState} (hwf : EnvWF env)
    (h : runSim env strats days st = some st')
    (hac : AllClosed st.trades) : AllClosed st'.trades := by
  simp only [runSim] at h
  exact foldl_bind_invariant (fun s => AllClosed s.trades) _ days
    (fun d _ s s' hs => processDay_allClosed hwf hs) st st' h hac

/-! ## Capacity under hedge-free strategies -/

theorem keys_distinct_eq {strats : List (SpreadType × StratData)}
    (hkeys : strats.Pairwise (fun a b => a.1 ≠ b.1))
    {q p : SpreadType × StratData} (hq : q ∈ strats) (hp : p ∈ strats)
    (heq : q.1 = p.1) : q = p := by
  by_contra hne
  exact List.Pairwise.forall (fun _ _ hab => Ne.symm hab) hkeys hq hp hne heq

theorem activeCount_append_single (l : List Trade) (t : Trade) (nm : SpreadType) :
    activeCount (l ++ [t]) nm ≤ activeCount l nm + 1 := by
  simp only [activeCount, List.filter_append, List.length_append]
  have h1 : (List.filter
      (fun t => t.spreadType == nm && t.currentStatus == Status.active) [t]).length ≤ 1 := by
    simp only [List.filter]
    split <;> simp
  omega

theorem activeCount_append_other (l : List Trade) (t : Trade) (nm : SpreadType)
    (hne : t.spreadType ≠ nm) :
    activeCount (l ++ [t]) nm = activeCount l nm := by
  simp only [activeCount, List.filter_append, List.length_append]
  have h1 : List.filter
      (fun t => t.spreadType == nm && t.currentStatus == Status.active) [t] = [] := by
    simp only [List.filter_cons, List.filter_nil]
    rw [if_neg]
    simp [hne]
  rw [h1]
  simp

theorem activeCount_closePhase_le (st : SimState) (now : Timestamp) (nm : SpreadType) :
    activeCount (closePhase st now).trades nm ≤ activeCount st.trades nm := by
  simp only [activeCount, closePhase]
  rw [← List.countP_eq_length_filter, ← List.countP_eq_length_filter, List.countP_map]
  refine List.countP_mono_left ?_
  intro a _ ha
  simp only [Function.comp] at ha
  have hact : (closeTrade now a).currentStatus = Status.active := by
    have hb := (Bool.and_eq_true _ _).mp ha
    simpa using hb.2
  obtain ⟨heq, _, _⟩ := closeTrade_active hact
  rw [heq] at ha
  exact ha

theorem commitSide_trades (st : SimState) (side : SpreadType) (t : Trade) :
    (commitSide st side t).trades = st.trades ∨
    (commitSide st side t).trades = st.trades ++ [t] := by
  rcases side with _ | _ <;> simp only [commitSide] <;> split_ifs <;> simp

theorem openCall_trades_noHedge {env : Env} {day sec : ℕ} {cp ep : ℚ}
    {sd : StratData} {st st' : SimState} (hh : sd.hedge = .none_)
    (h : openCall env day sec cp ep sd st = some st') :
    st'.trades = st.trades ∨
    ∃ t, t.spreadType = .call_spread ∧ st'.trades = st.trades ++ [t] := by
  simp only [openCall] at h
  split at h
  · exact absurd h (by simp)
  · simp only [Option.some.injEq] at h
    exact Or.inl (h ▸ rfl)
  · rename_i tc heqc
    simp only [hedgeEntry?, hh, Option.some.injEq] at h
    subst h
    rcases commitSide_trades st .call_spread tc with hc | hc
    · exact Or.inl hc
    · exact Or.inr ⟨tc, (callGetSpreadData_fields heqc).1, hc⟩

theorem openPut_trades_noHedge {env : Env} {day sec : ℕ} {cp ep : ℚ}
    {sd : StratData} {st st' : SimState} (hh : sd.hedge = .none_)
    (h : openPut env day sec cp ep sd st = some st') :
    st'.trades = st.trades ∨
    ∃ t, t.spreadType = .put_spread ∧ st'.trades = st.trades ++ [t] := by
  simp only [openPut] at h
  split at h
  · exact absurd h (by simp)
  · simp only [Option.some.injEq] at h
    exact Or.inl (h ▸ rfl)
  · rename_i tp heqp
    simp only [hedgeEntry?, hh, Option.some.injEq] at h
    subst h
    rcases commitSide_trades st .put_spread tp with hc | hc
    · exact Or.inl hc
    · exact Or.inr ⟨tp, (putGetSpreadData_fields heqp).1, hc⟩

theorem openPhase_cap {env : Env} {day sec : ℕ} {cp ep : ℚ} {nm : SpreadType}
    {sd : StratData} {st st' : SimState} (hh : sd.hedge = .none_)
    (h : openPhase env day sec cp ep nm sd st = some st') :
    (∀ nm', nm' ≠ nm → activeCount st'.trades nm' = activeCount st.trades nm') ∧
    (activeCount st'.trades nm ≤ activeCount st.trades nm ∨
      activeCount st'.trades nm ≤ sd.maxActive) := by
  simp only [openPhase] at h
  split_ifs at h with hcap hent
  · have hshape : st'.trades = st.trades ∨
        ∃ t, t.spreadType = nm ∧ st'.trades = st.trades ++ [t] := by
      rcases nm with _ | _
      · exact openPut_trades_noHedge hh h
      · exact openCall_trades_noHedge hh h
    rcases hshape with he | ⟨t, hty, he⟩
    · rw [he]
      exact ⟨fun _ _ => rfl, Or.inl le_rfl⟩
    · constructor
      · intro nm' hne
        rw [he]
        exact activeCount_append_other _ _ _ (by rw [hty]; exact hne.symm)
      · right
        rw [he]
        have h2 := activeCount_append_single st.trades t nm
        omega
  · simp only [Option.some.injEq] at h
    subst h
    exact ⟨fun _ _ => rfl, Or.inl le_rfl⟩
  · simp only [Option.some.injEq] at h
    subst h
    exact ⟨fun _ _ => rfl, Or.inl le_rfl⟩

theorem stratStep_cap {env : Env} {day sec : ℕ} {cp? ep? : Option ℚ}
    {strats : List (SpreadType × StratData)} {p : SpreadType × StratData}
    {st st' : SimState}
    (hkeys : strats.Pairwise (fun a b => a.1 ≠ b.1)) (hp : p ∈ strats)
    (hh : ∀ q ∈ strats, q.2.hedge = .none_)
    (h : stratStep env day sec cp? ep? p.1 p.2 st = some st')
    (hc : CapInv strats st.trades) : CapInv strats st'.trades := by
  simp only [stratStep, Option.map_eq_some'] at h
  obtain ⟨st1, h1, h2⟩ := h
  subst h2
  have hc1 : CapInv strats st1.trades := by
    split at h1
    · split_ifs at h1
      · simp only [Option.some.injEq] at h1
        exact h1 ▸ hc
      · obtain ⟨hother, hself⟩ := openPhase_cap (hh p hp) h1
        intro q hq
        by_cases hqp : q.1 = p.1
        · have hqe : q = p := keys_distinct_eq hkeys hq hp hqp
          subst hqe
          rcases hself with hle | hle
          · exact le_trans hle (hc q hq)
          · exact hle
        · rw [hother q.1 hqp]
          exact hc q hq
    all_goals simp only [Option.some.injEq] at h1
    all_goals exact h1 ▸ hc
  intro q hq
  exact le_trans (activeCount_closePhase_le st1 ⟨day, sec⟩ q.1) (hc1 q hq)

theorem processMinute_cap {env : Env} {strats : List (SpreadType × StratData)}
    {day sec : ℕ} {st st' : SimState}
    (hkeys : strats.Pairwise (fun a b => a.1 ≠ b.1))
    (hh : ∀ q ∈ strats, q.2.hedge = .none_)
    (h : processMinute env strats day sec st = some st')
    (hc : CapInv strats st.trades) : CapInv strats st'.trades := by
  simp only [processMinute] at h
  exact foldl_bind_invariant (fun s => CapInv strats s.trades) _ strats
    (fun p hp s s' hs => stratStep_cap hkeys hp hh hs) st st' h hc

theorem runDayUpTo_cap {env : Env} {strats : List (SpreadType × StratData)}
    {day n : ℕ} {st st' : SimState}
    (hkeys : strats.Pairwise (fun a b => a.1 ≠ b.1))
    (hh : ∀ q ∈ strats, q.2.hedge = .none_)
    (h : runDayUpTo env strats day n st = some st')
    (hc : CapInv strats st.trades) : CapInv strats st'.trades := by
  simp only [runDayUpTo] at h
  exact foldl_bind_invariant (fun s => CapInv strats s.trades) _ _
    (fun sec _ s s' hs => processMinute_cap hkeys hh hs) _ st' h hc

theorem runSim_cap {env : Env} {strats : List (SpreadType × StratData)}
    {days : List ℕ} {st st' : SimState}
    (hkeys : strats.Pairwise (fun a b => a.1 ≠ b.1))
    (hh : ∀ q ∈ strats, q.2.hedge = .none_)
    (h : runSim env strats days st = some st')
    (hc : CapInv strats st.trades) : CapInv strats st'.trades := by
  simp only [runSim] at h
  exact foldl_bind_invariant (fun s => CapInv strats s.trades) _ days
    (fun d _ s s' hs => runDayUpTo_cap hkeys hh hs) st st' h hc

/-- C3 (amended): when every configured strategy's hedge policy is `none`
(so the hedge block, which performs no capacity check, never runs) and the
strategy keys are distinct (as the strategies-dict construction guarantees),
then at every minute of a simulation run — after any prefix of days and any
number of minutes into the current day, starting from the empty ledger —
the number of active trades bearing a strategy's spread type is at most that
strategy's `max_active_positions`. -/
theorem C3_capacity_amended {env : Env} {strats : List (SpreadType × StratData)}
    {days : List ℕ} {d n : ℕ} {st' : SimState}
    (hkeys : strats.Pairwise (fun a b => a.1 ≠ b.1))
    (hh : ∀ q ∈ strats, q.2.hedge = .none_)
    (h : runSimUpTo env strats days d n initState = some st') :
    CapInv strats st'.trades := by
  simp only [runSimUpTo] at h
  rw [Option.bind_eq_some] at h
  obtain ⟨stm, hrun, hday⟩ := h
  have hc0 : CapInv strats initState.trades := by
    intro p _
    simp [activeCount, initState]
  exact runDayUpTo_cap hkeys hh hday (runSim_cap hkeys hh hrun hc0)

/-- C3 witness: a single hedge-free put strategy at the very start of a run
satisfies the capacity invariant. -/
theorem C3_capacity_amended_w :
    CapInv [(SpreadType.put_spread, c6sd)] initState.trades :=
  @C3_capacity_amended envE [(SpreadType.put_spread, c6sd)] [] 0 0 initState
    (List.pairwise_singleton _ _)
    (by
      intro q hq
      rw [List.mem_singleton] at hq
      subst hq
      rfl)
    rfl

/-- C5: (a) at every minute of a simulation run — after any prefix of days
and any number of minutes into the current day, starting from the empty
ledger — no two trades that are simultaneously active and of the same
spread type share a strike, provided the option-chain data respects the
session window (all quote times at most 22:00:00); and (b) when a trade is
due (`exit_time <= current_time` while still active), the close phase
removes both of its strikes from its side's reservation set. -/
theorem C5_strike_reservation {env : Env} {strats : List (SpreadType × StratData)}
    {days : List ℕ} {d n : ℕ} {st' : SimState} {stc : SimState} {now : Timestamp}
    {tc : Trade} (hwf : EnvWF env)
    (h : runSimUpTo env strats days d n initState = some st')
    (htc : tc ∈ stc.trades) (hle : Timestamp.le tc.exitTime now = true)
    (hact : tc.currentStatus = .active) :
    NoSharedStrikes st'.trades ∧
    (tc.spreadType = .put_spread →
      tc.strikes.1 ∉ (closePhase stc now).usedPut ∧
      tc.strikes.2 ∉ (closePhase stc now).usedPut) ∧
    (tc.spreadType = .call_spread →
      tc.strikes.1 ∉ (closePhase stc now).usedCall ∧
      tc.strikes.2 ∉ (closePhase stc now).usedCall) := by
  obtain ⟨hrel1, hrel2⟩ := closePhase_releases stc now tc htc hle hact
  refine ⟨?_, hrel1, hrel2⟩
  simp only [runSimUpTo] at h
  rw [Option.bind_eq_some] at h
  obtain ⟨stm, hrun, hday⟩ := h
  have hac : AllClosed stm.trades :=
    runSim_allClosed hwf hrun (fun t ht => absurd ht (List.not_mem_nil t))
  exact (runDayUpTo_resInv hwf hday hac).2.1

/-- C5 witness: the empty run shares no strikes, and closing the due put
trade on strikes (100, 95) releases both strikes from the put-side
reservation set. -/
theorem C5_strike_reservation_w :
    NoSharedStrikes initState.trades ∧
    (c5wTrade.spreadType = .put_spread →
      c5wTrade.strikes.1 ∉ (closePhase c5wState ⟨0, 79200⟩).usedPut ∧
      c5wTrade.strikes.2 ∉ (closePhase c5wState ⟨0, 79200⟩).usedPut) ∧
    (c5wTrade.spreadType = .call_spread →
      c5wTrade.strikes.1 ∉ (closePhase c5wState ⟨0, 79200⟩).usedCall ∧
      c5wTrade.strikes.2 ∉ (closePhase c5wState ⟨0, 79200⟩).usedCall) :=
  @C5_strike_reservation envE [] [] 0 0 initState c5wState ⟨0, 79200⟩ c5wTrade
    envE_wf rfl (List.mem_singleton.mpr rfl) (by decide) rfl

/-- C10: starting from the empty ledger, after every completed day of the
main loop (`runSim` over any list of days, each day ending with the
22:00:00 iteration) every trade of the ledger is marked closed; this rests
on the builders assigning every trade an exit time on the entry day no
later than 22:00:00 whenever the option-chain data respects the session
window, which the last two conjuncts state for the put and call builders. -/
theorem C10_day_closure {env : Env} {strats : List (SpreadType × StratData)}
    {days : List ℕ} {st' : SimState} {day esec : ℕ} {spx eod : ℚ}
    {sd : StratData} {forced : Option (ℚ × ℚ)} {tP tC : Trade}
    (hwf : EnvWF env)
    (h : runSim env strats days initState = some st') :
    AllClosed st'.trades ∧
    (putGetSpreadData (env.chainP day) spx eod day esec sd simSlippage
        simCommission forced = .trade tP →
      tP.exitTime.day = day ∧ tP.exitTime.sec ≤ 79200) ∧
    (callGetSpreadData (env.chainC day) spx eod day esec sd simSlippage
        simCommission forced = .trade tC →
      tC.exitTime.day = day ∧ tC.exitTime.sec ≤ 79200) := by
  refine ⟨runSim_allClosed hwf h (fun t ht => absurd ht (List.not_mem_nil t)),
    ?_, ?_⟩
  · intro hp
    exact ⟨(putGetSpreadData_fields hp).2.2.2.1,
      putGetSpreadData_exit_le (fun k => (hwf day k).1) hp⟩
  · intro hc
    exact ⟨(callGetSpreadData_fields hc).2.2.2.1,
      callGetSpreadData_exit_le (fun k => (hwf day k).2) hc⟩

set_option maxRecDepth 8000 in
/-- C10 witness: one full simulated day over the empty market leaves the
ledger (still empty) all-closed, instantiating the builder bounds at the
first minute of day 0. -/
theorem C10_day_closure_w :
    AllClosed initState.trades ∧
    (putGetSpreadData (envE.chainP 0) 100 100 0 55800 c6sd simSlippage
        simCommission none = .trade trDefault →
      trDefault.exitTime.day = 0 ∧ trDefault.exitTime.sec ≤ 79200) ∧
    (callGetSpreadData (envE.chainC 0) 100 100 0 55800 c6sd simSlippage
        simCommission none = .trade trDefault →
      trDefault.exitTime.day = 0 ∧ trDefault.exitTime.sec ≤ 79200) :=
  @C10_day_closure envE [] [0] initState 0 55800 100 100 c6sd none trDefault
    trDefault envE_wf rfl

end OptSim
